import Mathlib

/-!
# The host registry of network/lan.go

A shallow embedding of the `LAN` type of `network/lan.go` and of its methods.

* Go strings are Lean strings; Go's `uint` is a natural number reduced modulo `2 ^ 64`.
* A Go map with string keys is a list of key/value pairs read from the front; the
  operations below accept any list and never create a second entry for a key.
* `*Endpoint` values are addresses into `LAN.heap`, the endpoints the registry has
  allocated; `e.Alias = alias` writes through the address.  `iface` and `gateway` are
  held by value: no method of `LAN` writes a field of theirs that a method reads.
* The callbacks `newCb` and `lostCb` are recorded in `LAN.events`, oldest first.
* Every method is one atomic state transformer; the mutex does not appear in the state.
  `Op.acts` lists, for each public method, its `Lock` and `Unlock` and its accesses to
  the registry in program order.
* What lan.go uses but does not declare (`NormalizeMac`, `BroadcastSuffix`,
  `BroadcastMac`, `NewEndpointWithAlias`) and the library functions `strings.ToLower`,
  `net.ParseIP`, `IPNet.Contains` are the fields of `Env`; the theorems hold for every `Env`.
-/

namespace Network

/-! ## Constants and machine integers -/

/-- Value of the constant `LANDefaultttl` (lan.go, line 10). -/
def LANDefaultttl : Nat := 10

/-- Number of values of Go's `uint` on a 64-bit platform. -/
def uintModulus : Nat := 2 ^ 64

/-- Go's `x--` on a `uint`: wraps from 0 to the largest value. -/
def uintDec (t : Nat) : Nat := (t + uintModulus - 1) % uintModulus

/-- Go's `x++` on a `uint`. -/
def uintInc (t : Nat) : Nat := (t + 1) % uintModulus

/-! ## Go maps with string keys -/

/-- Go map `map[string]α` as a list of bindings. -/
abbrev GoMap (α : Type) := List (String × α)

/-- Go's `v, found := m[k]`: `none` when `k` is not a key. -/
def mapGet {α : Type} : GoMap α → String → Option α
  | [], _ => none
  | (k', v) :: m, k => if k' = k then some v else mapGet m k

/-- Go's `m[k] = v`: overwrites the binding of `k`, or adds one. -/
def mapSet {α : Type} : GoMap α → String → α → GoMap α
  | [], k, v => [(k, v)]
  | (k', v') :: m, k, v => if k' = k then (k, v) :: m else (k', v') :: mapSet m k v

/-- Go's `delete(m, k)`. -/
def mapDelete {α : Type} : GoMap α → String → GoMap α
  | [], _ => []
  | (k', v) :: m, k => if k' = k then mapDelete m k else (k', v) :: mapDelete m k

/-- Whether `k` is a key of `m`. -/
def mapHas {α : Type} (m : GoMap α) (k : String) : Bool := (mapGet m k).isSome

/-- Go's `m[k]` for a `map[string]uint`: the zero value when `k` is not a key. -/
def ttlOf (m : GoMap Nat) (k : String) : Nat := (mapGet m k).getD 0

/-! ## Endpoints, the environment, the registry -/

/-- Go's `net.IP`, as its bytes. -/
abbrev IP := List Nat

/-- Go's `net.IPNet`: network number and mask. -/
structure IPNet where
  IP : List Nat
  Mask : List Nat
deriving DecidableEq, Repr

/-- The fields of `Endpoint` that lan.go reads or writes. -/
structure Endpoint where
  IpAddress : String
  HwAddress : String
  Alias : String
  Net : IPNet
deriving DecidableEq, Repr

/-- Address of an `Endpoint` in `LAN.heap`: a non-nil `*Endpoint`. -/
abbrev Ptr := Nat

/-- What lan.go takes from the rest of the package and from Go's library. -/
structure Env where
  NormalizeMac : String → String
  ToLower : String → String
  BroadcastSuffix : String
  BroadcastMac : String
  ParseIP : String → Option IP
  Contains : IPNet → IP → Bool
  NewEndpointWithAlias : String → String → String → Endpoint

/-- Go's `strings.HasSuffix`. -/
def HasSuffix (s suffix : String) : Bool := suffix.data.isSuffixOf s.data

/-- The call `n.Contains(addr)` where `addr` is the result of `net.ParseIP`: the nil
address of a failed parse is passed on to `Contains` as the address with no bytes. -/
def netContains (env : Env) (n : IPNet) : Option IP → Bool
  | none => env.Contains n []
  | some addr => env.Contains n addr

/-- Modelled from the spec: the type `Aliases` of lan.go's `aliases` field is declared
outside lan.go; the spec gives it `get(mac)`, the name or the empty string, and
`set(mac, name)`. -/
abbrev Aliases := GoMap String

/-- Modelled from the spec: `aliases.Get(mac)`, empty when no name is registered. -/
def Aliases.Get (a : Aliases) (mac : String) : String := (mapGet a mac).getD ""

/-- Modelled from the spec: `aliases.Set(mac, alias)`. -/
def Aliases.Set (a : Aliases) (mac name : String) : Aliases := mapSet a mac name

/-- One callback invocation, with the endpoint passed to it. -/
inductive Event where
  | newCb (e : Ptr)
  | lostCb (e : Ptr)
deriving DecidableEq, Repr

/-- The struct `LAN` (lan.go, lines 16 to 27) with the endpoint store and the callback log. -/
structure LAN where
  Hosts : GoMap Ptr
  iface : Endpoint
  gateway : Endpoint
  ttl : GoMap Nat
  aliases : Aliases
  heap : List Endpoint
  events : List Event
deriving DecidableEq, Repr

/-- The constructor `NewLAN`; `aliases` is what `LoadAliases` returned. -/
def NewLAN (iface gateway : Endpoint) (aliases : Aliases) : LAN :=
  { Hosts := [], iface := iface, gateway := gateway, ttl := [], aliases := aliases,
    heap := [], events := [] }

/-- The endpoint at address `p`. -/
def deref (lan : LAN) (p : Ptr) : Option Endpoint := lan.heap[p]?

/-- The assignment to `e.Alias` through the address `p`. -/
def setAlias (heap : List Endpoint) (p : Ptr) (name : String) : List Endpoint :=
  match heap[p]? with
  | some e => heap.set p { e with Alias := name }
  | none => heap

/-! ## The methods of `LAN` -/

/-- The method `SetAliasFor` (lines 46 to 57). -/
def SetAliasFor (env : Env) (lan : LAN) (mac name : String) : LAN × Bool :=
  let mac := env.NormalizeMac mac
  match mapGet lan.Hosts mac with
  | some e =>
    ({ lan with aliases := lan.aliases.Set mac name, heap := setAlias lan.heap e name }, true)
  | none => (lan, false)

/-- The method `Get` (lines 59 to 67). -/
def Get (lan : LAN) (mac : String) : Option Ptr × Bool :=
  match mapGet lan.Hosts mac with
  | some e => (some e, true)
  | none => (none, false)

/-- The method `List` (lines 69 to 78), in the iteration order of the map. -/
def LAN.List (lan : LAN) : List Ptr := lan.Hosts.map Prod.snd

/-- The method `WasMissed` (lines 80 to 92). -/
def WasMissed (lan : LAN) (mac : String) : Bool :=
  if mac = lan.iface.HwAddress ∨ mac = lan.gateway.HwAddress then false
  else
    match mapGet lan.ttl mac with
    | some ttl => decide (ttl < LANDefaultttl)
    | none => true

/-- The method `Remove` (lines 94 to 107). -/
def Remove (lan : LAN) (_ip mac : String) : LAN :=
  match mapGet lan.Hosts mac with
  | some e =>
    let ttl := mapSet lan.ttl mac (uintDec (ttlOf lan.ttl mac))
    if ttlOf ttl mac = 0 then
      { lan with Hosts := mapDelete lan.Hosts mac, ttl := mapDelete ttl mac,
                 events := lan.events ++ [Event.lostCb e] }
    else { lan with ttl := ttl }
  | none => lan

/-- The method `shouldIgnore` (lines 109 to 129). -/
def shouldIgnore (env : Env) (lan : LAN) (ip mac : String) : Bool :=
  if ip = lan.iface.IpAddress then true
  else if ip = lan.gateway.IpAddress then true
  else if HasSuffix ip env.BroadcastSuffix then true
  else if env.ToLower mac = env.BroadcastMac then true
  else
    let addr := env.ParseIP ip
    netContains env lan.iface.Net addr == false

/-- The method `AddIfNew` (lines 166 to 189): the new state and the returned pointer,
`none` for nil. -/
def AddIfNew (env : Env) (lan : LAN) (ip mac : String) : LAN × Option Ptr :=
  let mac := env.NormalizeMac mac
  if shouldIgnore env lan ip mac then (lan, none)
  else
    match mapGet lan.Hosts mac with
    | some t =>
      if ttlOf lan.ttl mac < LANDefaultttl then
        ({ lan with ttl := mapSet lan.ttl mac (uintInc (ttlOf lan.ttl mac)) }, some t)
      else (lan, some t)
    | none =>
      let e : Ptr := lan.heap.length
      ({ lan with
          heap := lan.heap ++ [env.NewEndpointWithAlias ip mac (lan.aliases.Get mac)],
          Hosts := mapSet lan.Hosts mac e,
          ttl := mapSet lan.ttl mac LANDefaultttl,
          events := lan.events ++ [Event.newCb e] }, none)

/-- The test `e.IpAddress == ip` on the endpoint at address `p`. -/
def hasIp (lan : LAN) (ip : String) (p : Ptr) : Bool :=
  match deref lan p with
  | some e => e.IpAddress == ip
  | none => false

/-- The method `Has` (lines 131 to 142): the scan of the map, in its iteration order. -/
def Has (lan : LAN) (ip : String) : Bool :=
  lan.Hosts.any (fun kv => hasIp lan ip kv.2)

/-- The method `EachHost` (lines 144 to 151): the arguments of the calls of `cb`, in the
iteration order of the map. -/
def EachHost (lan : LAN) : List (String × Ptr) := lan.Hosts

/-- The method `GetByIp` (lines 153 to 164): the first match of the scan, `none` for nil. -/
def GetByIp (lan : LAN) (ip : String) : Option Ptr :=
  (lan.Hosts.find? (fun kv => hasIp lan ip kv.2)).map Prod.snd

/-! ## Runs of the registry -/

/-- One state-changing call on the registry.  The queries (`Get`, `List`, `WasMissed`,
`Has`, `EachHost`, `GetByIp`) are functions of the state and change nothing. -/
inductive Call where
  | addIfNew (ip mac : String)
  | remove (ip mac : String)
  | setAliasFor (mac name : String)
deriving DecidableEq, Repr

/-- The state after one call. -/
def Call.exec (env : Env) (lan : LAN) : Call → LAN
  | Call.addIfNew ip mac => (AddIfNew env lan ip mac).1
  | Call.remove ip mac => Remove lan ip mac
  | Call.setAliasFor mac name => (SetAliasFor env lan mac name).1

/-- The state after a sequence of calls, first call first. -/
def run (env : Env) (lan : LAN) (calls : List Call) : LAN :=
  calls.foldl (Call.exec env) lan

/-- States a freshly constructed registry reaches through its methods. -/
def Reachable (env : Env) (lan : LAN) : Prop :=
  ∃ (iface gateway : Endpoint) (aliases : Aliases) (calls : List Call),
    lan = run env (NewLAN iface gateway aliases) calls

/-- Consecutive `Remove` calls for one MAC, one call per entry of `ips`. -/
def removeEach (lan : LAN) (ips : List String) (mac : String) : LAN :=
  ips.foldl (fun l ip => Remove l ip mac) lan

/-- Number of `lostCb` invocations in a callback log. -/
def lostCount (events : List Event) : Nat :=
  (events.filter (fun ev => match ev with | Event.lostCb _ => true | Event.newCb _ => false)).length

/-- Number of `newCb` invocations in a callback log. -/
def newCount (events : List Event) : Nat :=
  (events.filter (fun ev => match ev with | Event.newCb _ => true | Event.lostCb _ => false)).length

/-! ## A concrete environment -/

/-- ASCII lower-casing of one character. -/
def lowerChar (c : Char) : Char :=
  if 65 ≤ c.toNat ∧ c.toNat ≤ 90 then Char.ofNat (c.toNat + 32) else c

/-- Modelled from the spec: `NormalizeMac` is declared outside lan.go; the spec calls it
case/separator normalization: letters are lower-cased and `-` becomes `:`. -/
def normalizeMacModel (mac : String) : String :=
  String.mk (mac.data.map (fun c => if c = '-' then ':' else lowerChar c))

/-- Lower-casing of the ASCII letters of a string. -/
def toLowerModel (s : String) : String := String.mk (s.data.map lowerChar)

/-- Dotted-decimal IPv4 parsing: octets read so far, and the octet being read. -/
def parseIPv4Aux : List Char → List Nat → Option Nat → Option IP
  | [], octets, some cur => if octets.length = 3 then some (octets ++ [cur]) else none
  | [], _, none => none
  | c :: cs, octets, cur =>
    if c = '.' then
      match cur with
      | some v => parseIPv4Aux cs (octets ++ [v]) none
      | none => none
    else if 48 ≤ c.toNat ∧ c.toNat ≤ 57 then
      let v := cur.getD 0 * 10 + (c.toNat - 48)
      if v ≤ 255 then parseIPv4Aux cs octets (some v) else none
    else none

/-- The dotted-decimal IPv4 part of `net.ParseIP`; every other string is unparseable. -/
def parseIPv4 (s : String) : Option IP := parseIPv4Aux s.data [] none

/-- Byte-wise comparison under a mask, for sequences of one length. -/
def maskedEq : List Nat → List Nat → List Nat → Bool
  | n :: ns, m :: ms, a :: as => (n % 256 &&& m) == (a % 256 &&& m) && maskedEq ns ms as
  | [], [], [] => true
  | _, _, _ => false

/-- The IPv4 part of `IPNet.Contains`: the bytes of the address are compared with the
network number under the mask when the lengths agree.  As in Go, a network with no IP
and no mask contains the nil address, no byte differing, and no other address. -/
def containsIPv4 (n : IPNet) (addr : IP) : Bool := maskedEq n.IP n.Mask addr

/-- Modelled from the spec: `NewEndpointWithAlias` is declared outside lan.go; the spec
has it construct the endpoint for `(ip, mac)` with the given alias. -/
def newEndpointModel (ip mac name : String) : Endpoint :=
  { IpAddress := ip, HwAddress := mac, Alias := name, Net := { IP := [], Mask := [] } }

/-- An environment for concrete runs: the models above, with `.255` as the broadcast
suffix and `ff:ff:ff:ff:ff:ff` as the broadcast MAC. -/
def stdEnv : Env :=
  { NormalizeMac := normalizeMacModel
    ToLower := toLowerModel
    BroadcastSuffix := ".255"
    BroadcastMac := "ff:ff:ff:ff:ff:ff"
    ParseIP := parseIPv4
    Contains := containsIPv4
    NewEndpointWithAlias := newEndpointModel }

/-- The local interface of the concrete runs: 192.168.1.10 in 192.168.1.0/24. -/
def ifaceEx : Endpoint :=
  { IpAddress := "192.168.1.10", HwAddress := "aa:bb:cc:dd:ee:01", Alias := "",
    Net := { IP := [192, 168, 1, 0], Mask := [255, 255, 255, 0] } }

/-- The gateway of the concrete runs: 192.168.1.1. -/
def gatewayEx : Endpoint :=
  { IpAddress := "192.168.1.1", HwAddress := "aa:bb:cc:dd:ee:02", Alias := "",
    Net := { IP := [192, 168, 1, 0], Mask := [255, 255, 255, 0] } }

/-- A freshly constructed registry with an empty alias store. -/
def freshEx : LAN := NewLAN ifaceEx gatewayEx []

/-- A freshly constructed registry whose interface has the zero `net.IPNet` as `Net`:
no IP and no mask. -/
def zeroNetEx : LAN :=
  NewLAN { ifaceEx with Net := { IP := [], Mask := [] } } gatewayEx []

/-- The fresh registry after one host was seen and then missed twice. -/
def fadedEx : LAN :=
  run stdEnv freshEx
    [Call.addIfNew "192.168.1.50" "AA-BB-CC-DD-EE-77", Call.remove "192.168.1.50" "aa:bb:cc:dd:ee:77",
     Call.remove "192.168.1.50" "aa:bb:cc:dd:ee:77"]

/-- The fresh registry after its first accepted observation. -/
def seenEx : LAN := run stdEnv freshEx [Call.addIfNew "192.168.1.50" "AA-BB-CC-DD-EE-77"]

/-- The fresh registry after an observation that carries the interface's own MAC with
another IP of the subnet. -/
def selfSeenEx : LAN := run stdEnv freshEx [Call.addIfNew "192.168.1.50" "aa:bb:cc:dd:ee:01"]

/-! ## The mutex -/

/-- The parts of the registry a method reads or writes: the fields of `LAN` and the
endpoints behind the pointers of `Hosts`. -/
inductive Part where
  | Hosts
  | ttl
  | aliases
  | iface
  | gateway
  | endpoint
deriving DecidableEq, Repr

/-- One step of a method, as far as the mutex is concerned: `lan.Lock()`, the deferred
`lan.Unlock()`, an access to a part of the registry, a call of a callback. -/
inductive Act where
  | Lock
  | Unlock
  | read (part : Part)
  | write (part : Part)
  | callback
deriving DecidableEq, Repr

/-- The public methods of `LAN` with their arguments. -/
inductive Op where
  | setAliasFor (mac name : String)
  | get (mac : String)
  | list
  | wasMissed (mac : String)
  | remove (ip mac : String)
  | has (ip : String)
  | eachHost
  | getByIp (ip : String)
  | addIfNew (ip mac : String)
deriving DecidableEq, Repr

/-- The endpoints a scan for `ip` inspects: all up to and including the first match. -/
def scanActs (lan : LAN) (ip : String) : List Act :=
  ((lan.Hosts.takeWhile (fun kv => !hasIp lan ip kv.2)).map (fun _ => Act.read Part.endpoint))
    ++ (if Has lan ip then [Act.read Part.endpoint] else [])

/-- The accesses of `shouldIgnore` (lines 109 to 129), which takes no lock itself. -/
def shouldIgnoreActs (env : Env) (lan : LAN) (ip mac : String) : List Act :=
  if ip = lan.iface.IpAddress then [Act.read Part.iface]
  else if ip = lan.gateway.IpAddress then [Act.read Part.iface, Act.read Part.gateway]
  else if HasSuffix ip env.BroadcastSuffix then [Act.read Part.iface, Act.read Part.gateway]
  else if env.ToLower mac = env.BroadcastMac then [Act.read Part.iface, Act.read Part.gateway]
  else [Act.read Part.iface, Act.read Part.gateway, Act.read Part.iface]

/-- The steps of a public method in program order, on the path it takes in state `lan`. -/
def Op.acts (env : Env) (lan : LAN) : Op → List Act
  | Op.setAliasFor mac _ =>
    [Act.Lock, Act.read Part.Hosts]
      ++ (if mapHas lan.Hosts (env.NormalizeMac mac)
          then [Act.write Part.aliases, Act.write Part.endpoint] else [])
      ++ [Act.Unlock]
  | Op.get _ => [Act.Lock, Act.read Part.Hosts, Act.Unlock]
  | Op.list => [Act.Lock, Act.read Part.Hosts, Act.Unlock]
  | Op.wasMissed mac =>
    if mac = lan.iface.HwAddress then [Act.read Part.iface]
    else if mac = lan.gateway.HwAddress then [Act.read Part.iface, Act.read Part.gateway]
    else [Act.read Part.iface, Act.read Part.gateway, Act.Lock, Act.read Part.ttl, Act.Unlock]
  | Op.remove _ mac =>
    [Act.Lock, Act.read Part.Hosts]
      ++ (if mapHas lan.Hosts mac then
            [Act.read Part.ttl, Act.write Part.ttl, Act.read Part.ttl]
              ++ (if uintDec (ttlOf lan.ttl mac) = 0
                  then [Act.write Part.Hosts, Act.write Part.ttl, Act.callback] else [])
          else [])
      ++ [Act.Unlock]
  | Op.has ip => [Act.Lock, Act.read Part.Hosts] ++ scanActs lan ip ++ [Act.Unlock]
  | Op.eachHost =>
    [Act.Lock, Act.read Part.Hosts] ++ lan.Hosts.map (fun _ => Act.callback) ++ [Act.Unlock]
  | Op.getByIp ip => [Act.Lock, Act.read Part.Hosts] ++ scanActs lan ip ++ [Act.Unlock]
  | Op.addIfNew ip mac =>
    [Act.Lock] ++ shouldIgnoreActs env lan ip (env.NormalizeMac mac)
      ++ (if shouldIgnore env lan ip (env.NormalizeMac mac) then []
          else if mapHas lan.Hosts (env.NormalizeMac mac) then
            [Act.read Part.Hosts, Act.read Part.ttl]
              ++ (if ttlOf lan.ttl (env.NormalizeMac mac) < LANDefaultttl
                  then [Act.read Part.ttl, Act.write Part.ttl] else [])
          else [Act.read Part.Hosts, Act.read Part.aliases, Act.write Part.Hosts,
                Act.write Part.ttl, Act.callback])
      ++ [Act.Unlock]

/-- Whether an access to `part` may happen without the mutex. -/
abbrev Exempt := Part → Bool

/-- No part is exempt. -/
def noPart : Exempt := fun _ => false

/-- The interface and the gateway, which no method writes. -/
def ifaceOrGateway : Exempt := fun part =>
  match part with
  | Part.iface => true
  | Part.gateway => true
  | _ => false

/-- Whether a trace keeps the lock discipline from the mutex state `held`: the mutex is
taken only when free and released only when held, every access to a part that is not
exempt and every callback happens while it is held, and it is free at the end. -/
def guardedFrom (exempt : Exempt) : Bool → List Act → Bool
  | held, [] => !held
  | held, Act.Lock :: rest => !held && guardedFrom exempt true rest
  | held, Act.Unlock :: rest => held && guardedFrom exempt false rest
  | held, Act.read part :: rest => (held || exempt part) && guardedFrom exempt held rest
  | held, Act.write part :: rest => (held || exempt part) && guardedFrom exempt held rest
  | held, Act.callback :: rest => held && guardedFrom exempt held rest

/-- The lock discipline of a whole method: it starts with the mutex free. -/
def guarded (exempt : Exempt) (acts : List Act) : Bool := guardedFrom exempt false acts

/-- Whether the method acquires the mutex. -/
def takesLock (acts : List Act) : Bool := acts.contains Act.Lock

/-- The keys of a Go map, in the order of the list. -/
def keys {α : Type} (m : GoMap α) : List String := m.map Prod.fst

/-- The fresh registry after the accepted observations of two hosts. -/
def twoSeenEx : LAN :=
  run stdEnv freshEx
    [Call.addIfNew "192.168.1.50" "AA-BB-CC-DD-EE-77",
     Call.addIfNew "192.168.1.60" "aa:bb:cc:dd:ee:78"]

/-- The representation invariant of the registry: `Hosts` lists each key once, distinct
keys hold distinct endpoints, and every stored address is one of an allocated endpoint. -/
def HeapInv (lan : LAN) : Prop :=
  (keys lan.Hosts).Nodup ∧ (lan.Hosts.map Prod.snd).Nodup ∧
  ∀ kv ∈ lan.Hosts, kv.2 < lan.heap.length

/-- The liveness invariant of the registry: `Hosts` and `ttl` have the same keys and
every counter lies between 1 and `LANDefaultttl`. -/
def LivenessInv (lan : LAN) : Prop :=
  (∀ k, mapHas lan.Hosts k = mapHas lan.ttl k) ∧
  ∀ k t, mapGet lan.ttl k = some t → 1 ≤ t ∧ t ≤ LANDefaultttl

/-! ## Facts about Go maps -/

theorem mapGet_mapSet_self {α : Type} (m : GoMap α) (k : String) (v : α) :
    mapGet (mapSet m k v) k = some v := by
  induction m with
  | nil => simp [mapSet, mapGet]
  | cons kv m ih =>
    obtain ⟨k', v'⟩ := kv
    by_cases h : k' = k
    · simp [mapSet, mapGet, h]
    · simp [mapSet, mapGet, h, ih]

theorem mapGet_mapSet_ne {α : Type} (m : GoMap α) (k k' : String) (v : α) (h : k' ≠ k) :
    mapGet (mapSet m k v) k' = mapGet m k' := by
  induction m with
  | nil => simp [mapSet, mapGet, Ne.symm h]
  | cons kv m ih =>
    obtain ⟨k₀, v₀⟩ := kv
    by_cases h₀ : k₀ = k
    · subst h₀
      simp [mapSet, mapGet, Ne.symm h]
    · by_cases h₁ : k₀ = k'
      · subst h₁
        simp [mapSet, mapGet, h]
      · simp [mapSet, mapGet, h₀, h₁, ih]

theorem mapGet_mapDelete_self {α : Type} (m : GoMap α) (k : String) :
    mapGet (mapDelete m k) k = none := by
  induction m with
  | nil => simp [mapDelete, mapGet]
  | cons kv m ih =>
    obtain ⟨k', v'⟩ := kv
    by_cases h : k' = k
    · simp [mapDelete, h, ih]
    · simp [mapDelete, mapGet, h, ih]

theorem mapGet_mapDelete_ne {α : Type} (m : GoMap α) (k k' : String) (h : k' ≠ k) :
    mapGet (mapDelete m k) k' = mapGet m k' := by
  induction m with
  | nil => simp [mapDelete, mapGet]
  | cons kv m ih =>
    obtain ⟨k₀, v₀⟩ := kv
    by_cases h₀ : k₀ = k
    · subst h₀
      simp [mapDelete, mapGet, Ne.symm h, ih]
    · by_cases h₁ : k₀ = k'
      · subst h₁
        simp [mapDelete, mapGet, h]
      · simp [mapDelete, mapGet, h₀, h₁, ih]

theorem mapDelete_of_absent {α : Type} (m : GoMap α) (k : String) (h : mapGet m k = none) :
    mapDelete m k = m := by
  induction m with
  | nil => simp [mapDelete]
  | cons kv m ih =>
    obtain ⟨k', v'⟩ := kv
    by_cases h' : k' = k
    · simp [mapGet, h'] at h
    · simp only [mapGet, h', if_false] at h
      simp [mapDelete, h', ih h]

theorem ttlOf_of_get {m : GoMap Nat} {k : String} {t : Nat} (h : mapGet m k = some t) :
    ttlOf m k = t := by
  simp [ttlOf, h]

theorem uintDec_of_pos {t : Nat} (h1 : 1 ≤ t) (h2 : t < uintModulus) : uintDec t = t - 1 := by
  unfold uintDec
  rw [show t + uintModulus - 1 = (t - 1) + uintModulus by omega, Nat.add_mod_right]
  exact Nat.mod_eq_of_lt (by omega)

theorem uintInc_of_lt {t : Nat} (h : t < LANDefaultttl) : uintInc t = t + 1 := by
  unfold uintInc
  apply Nat.mod_eq_of_lt
  have : LANDefaultttl + 1 < uintModulus := by decide
  omega

/-! ## The ignore filter -/

/-- The filter reads only the interface and the gateway of the registry. -/
theorem shouldIgnore_congr (env : Env) (lan lan' : LAN) (ip mac : String)
    (hi : lan'.iface = lan.iface) (hg : lan'.gateway = lan.gateway) :
    shouldIgnore env lan' ip mac = shouldIgnore env lan ip mac := by
  simp [shouldIgnore, hi, hg]

/-- An observation the filter lets through has an IP other than the interface's and the
gateway's. -/
theorem shouldIgnore_false_ip (env : Env) (lan : LAN) (ip mac : String)
    (h : shouldIgnore env lan ip mac = false) :
    ip ≠ lan.iface.IpAddress ∧ ip ≠ lan.gateway.IpAddress := by
  unfold shouldIgnore at h
  constructor
  · intro hc
    simp [hc] at h
  · intro hc
    simp [hc] at h

/-- An observation whose IP is the interface's or the gateway's, or ends with the
broadcast suffix, or whose normalized MAC is the broadcast MAC, or whose IP parses to an
address outside the interface's subnet, or does not parse while the interface's network
does not contain the nil address, makes `AddIfNew` return nil and leave the whole
registry as it was: `Hosts`, `ttl` (no bump for a known MAC) and the callback log.
`BroadcastMac` is a lower-case constant, as the comparison with the lower-cased MAC in
`shouldIgnore` presupposes. -/
theorem AddIfNew_ignored (env : Env) (lan : LAN) (ip mac : String)
    (hB : env.ToLower env.BroadcastMac = env.BroadcastMac)
    (h : ip = lan.iface.IpAddress ∨ ip = lan.gateway.IpAddress ∨
      HasSuffix ip env.BroadcastSuffix = true ∨
      env.NormalizeMac mac = env.BroadcastMac ∨
      (env.ParseIP ip = none ∧ env.Contains lan.iface.Net [] = false) ∨
      ∃ addr, env.ParseIP ip = some addr ∧ env.Contains lan.iface.Net addr = false) :
    (AddIfNew env lan ip mac).2 = none ∧
    (AddIfNew env lan ip mac).1.Hosts = lan.Hosts ∧
    (AddIfNew env lan ip mac).1.ttl = lan.ttl ∧
    (AddIfNew env lan ip mac).1.events = lan.events ∧
    (AddIfNew env lan ip mac).1 = lan := by
  have hs : shouldIgnore env lan ip (env.NormalizeMac mac) = true := by
    unfold shouldIgnore
    rcases h with h | h | h | h | ⟨h, hc⟩ | ⟨addr, h, hc⟩
    · simp [h]
    · simp [h]
    · simp [h]
    · simp [h, hB]
    · simp [h, hc, netContains]
    · simp [h, hc, netContains]
  simp [AddIfNew, hs]

/-- A known host, last seen with liveness 8, is observed with an IP of another subnet and
with a string that is no IP: nothing changes. -/
theorem AddIfNew_ignored_example :
    mapGet fadedEx.ttl "aa:bb:cc:dd:ee:77" = some 8 ∧
    (AddIfNew stdEnv fadedEx "10.0.0.5" "AA-BB-CC-DD-EE-77").1 = fadedEx ∧
    (AddIfNew stdEnv fadedEx "not-an-ip" "AA-BB-CC-DD-EE-77").1 = fadedEx :=
  ⟨by decide,
    (AddIfNew_ignored stdEnv fadedEx "10.0.0.5" "AA-BB-CC-DD-EE-77" (by decide)
      (Or.inr (Or.inr (Or.inr (Or.inr (Or.inr ⟨[10, 0, 0, 5], by decide, by decide⟩)))))).2.2.2.2,
    (AddIfNew_ignored stdEnv fadedEx "not-an-ip" "AA-BB-CC-DD-EE-77" (by decide)
      (Or.inr (Or.inr (Or.inr (Or.inr (Or.inl ⟨by decide, by decide⟩)))))).2.2.2.2⟩

/-- C1, the code at the failing input: on a fresh registry whose interface has the zero
`IPNet`, the observation of the string `not-an-ip`, which does not parse, is not
ignored.  `ParseIP` gives nil, `Contains` of the nil address is true, `shouldIgnore` is
false, and `AddIfNew` stores a new endpoint with that string as `IpAddress`, sets its
liveness to 10 and invokes `newCb`; line 126 announces that everything which is not in
the subnet is skipped. -/
theorem AddIfNew_unparseable_created :
    stdEnv.ParseIP "not-an-ip" = none ∧
    netContains stdEnv zeroNetEx.iface.Net (stdEnv.ParseIP "not-an-ip") = true ∧
    shouldIgnore stdEnv zeroNetEx "not-an-ip" (stdEnv.NormalizeMac "aa:bb:cc:dd:ee:77") = false ∧
    mapGet (AddIfNew stdEnv zeroNetEx "not-an-ip" "aa:bb:cc:dd:ee:77").1.Hosts
      "aa:bb:cc:dd:ee:77" = some 0 ∧
    deref (AddIfNew stdEnv zeroNetEx "not-an-ip" "aa:bb:cc:dd:ee:77").1 0
      = some (newEndpointModel "not-an-ip" "aa:bb:cc:dd:ee:77" "") ∧
    mapGet (AddIfNew stdEnv zeroNetEx "not-an-ip" "aa:bb:cc:dd:ee:77").1.ttl
      "aa:bb:cc:dd:ee:77" = some 10 ∧
    (AddIfNew stdEnv zeroNetEx "not-an-ip" "aa:bb:cc:dd:ee:77").1.events
      = [Event.newCb 0] := by
  decide

/-- C2: an observation that passes the filter and whose normalized MAC is not a key of
`Hosts` makes `AddIfNew` return nil, store under the normalized MAC a newly allocated
endpoint `NewEndpointWithAlias(ip, mac, aliases.Get(mac))`, set its `ttl` to
`LANDefaultttl`, which is 10, and invoke `newCb` once, with that endpoint. -/
theorem AddIfNew_first_sighting (env : Env) (lan : LAN) (ip mac : String)
    (hpass : shouldIgnore env lan ip (env.NormalizeMac mac) = false)
    (hnew : mapGet lan.Hosts (env.NormalizeMac mac) = none) :
    (AddIfNew env lan ip mac).2 = none ∧
    ∃ e : Ptr,
      deref lan e = none ∧
      mapGet (AddIfNew env lan ip mac).1.Hosts (env.NormalizeMac mac) = some e ∧
      deref (AddIfNew env lan ip mac).1 e =
        some (env.NewEndpointWithAlias ip (env.NormalizeMac mac)
          (lan.aliases.Get (env.NormalizeMac mac))) ∧
      mapGet (AddIfNew env lan ip mac).1.ttl (env.NormalizeMac mac) = some LANDefaultttl ∧
      LANDefaultttl = 10 ∧
      (AddIfNew env lan ip mac).1.events = lan.events ++ [Event.newCb e] := by
  refine ⟨by simp [AddIfNew, hpass, hnew], lan.heap.length, ?_⟩
  simp [AddIfNew, hpass, hnew, deref, mapGet_mapSet_self, LANDefaultttl]

/-- Witness of C2: a first observation on the fresh registry. -/
theorem AddIfNew_first_sighting_witness :
    (shouldIgnore stdEnv freshEx "192.168.1.50" (stdEnv.NormalizeMac "AA-BB-CC-DD-EE-77") = false ∧
      mapGet freshEx.Hosts (stdEnv.NormalizeMac "AA-BB-CC-DD-EE-77") = none) ∧
    (AddIfNew stdEnv freshEx "192.168.1.50" "AA-BB-CC-DD-EE-77").2 = none ∧
    mapGet (AddIfNew stdEnv freshEx "192.168.1.50" "AA-BB-CC-DD-EE-77").1.ttl
      (stdEnv.NormalizeMac "AA-BB-CC-DD-EE-77") = some LANDefaultttl :=
  have h := AddIfNew_first_sighting stdEnv freshEx "192.168.1.50" "AA-BB-CC-DD-EE-77"
    (by decide) (by decide)
  ⟨⟨by decide, by decide⟩, h.1, h.2.elim (fun _ he => he.2.2.2.1)⟩

/-! ## The branches of `AddIfNew` and `Remove` -/

theorem AddIfNew_of_ignore (env : Env) (lan : LAN) (ip mac : String)
    (hs : shouldIgnore env lan ip (env.NormalizeMac mac) = true) :
    AddIfNew env lan ip mac = (lan, none) := by
  simp [AddIfNew, hs]

theorem AddIfNew_of_new (env : Env) (lan : LAN) (ip mac : String)
    (hs : shouldIgnore env lan ip (env.NormalizeMac mac) = false)
    (hH : mapGet lan.Hosts (env.NormalizeMac mac) = none) :
    AddIfNew env lan ip mac =
      ({ lan with
          heap := lan.heap ++ [env.NewEndpointWithAlias ip (env.NormalizeMac mac)
            (lan.aliases.Get (env.NormalizeMac mac))],
          Hosts := mapSet lan.Hosts (env.NormalizeMac mac) lan.heap.length,
          ttl := mapSet lan.ttl (env.NormalizeMac mac) LANDefaultttl,
          events := lan.events ++ [Event.newCb lan.heap.length] }, none) := by
  simp [AddIfNew, hs, hH]

theorem AddIfNew_of_known_lt (env : Env) (lan : LAN) (ip mac : String) (e : Ptr)
    (hs : shouldIgnore env lan ip (env.NormalizeMac mac) = false)
    (hH : mapGet lan.Hosts (env.NormalizeMac mac) = some e)
    (ht : ttlOf lan.ttl (env.NormalizeMac mac) < LANDefaultttl) :
    AddIfNew env lan ip mac =
      ({ lan with
          ttl := mapSet lan.ttl (env.NormalizeMac mac)
            (ttlOf lan.ttl (env.NormalizeMac mac) + 1) }, some e) := by
  simp only [AddIfNew, hs, hH, ht, uintInc_of_lt ht, if_true, Bool.false_eq_true, if_false]

theorem AddIfNew_of_known_ge (env : Env) (lan : LAN) (ip mac : String) (e : Ptr)
    (hs : shouldIgnore env lan ip (env.NormalizeMac mac) = false)
    (hH : mapGet lan.Hosts (env.NormalizeMac mac) = some e)
    (ht : ¬ ttlOf lan.ttl (env.NormalizeMac mac) < LANDefaultttl) :
    AddIfNew env lan ip mac = (lan, some e) := by
  simp [AddIfNew, hs, hH, ht]

theorem Remove_of_absent (lan : LAN) (ip mac : String) (hH : mapGet lan.Hosts mac = none) :
    Remove lan ip mac = lan := by
  simp [Remove, hH]

theorem ttlOf_mapSet_self (m : GoMap Nat) (k : String) (v : Nat) :
    ttlOf (mapSet m k v) k = v := by
  simp only [ttlOf, mapGet_mapSet_self, Option.getD_some]

theorem mapDelete_mapSet_self {α : Type} (m : GoMap α) (k : String) (v : α) :
    mapDelete (mapSet m k v) k = mapDelete m k := by
  induction m with
  | nil => simp [mapSet, mapDelete]
  | cons kv m ih =>
    obtain ⟨k', v'⟩ := kv
    by_cases h : k' = k
    · simp [mapSet, mapDelete, h]
    · simp [mapSet, mapDelete, h, ih]

theorem Remove_of_last (lan : LAN) (ip mac : String) (e : Ptr)
    (hH : mapGet lan.Hosts mac = some e) (ht : uintDec (ttlOf lan.ttl mac) = 0) :
    Remove lan ip mac =
      { lan with Hosts := mapDelete lan.Hosts mac, ttl := mapDelete lan.ttl mac,
                 events := lan.events ++ [Event.lostCb e] } := by
  unfold Remove
  rw [hH]
  simp only [ttlOf_mapSet_self, ht, if_true, mapDelete_mapSet_self]

theorem Remove_of_more (lan : LAN) (ip mac : String) (e : Ptr)
    (hH : mapGet lan.Hosts mac = some e) (ht : uintDec (ttlOf lan.ttl mac) ≠ 0) :
    Remove lan ip mac = { lan with ttl := mapSet lan.ttl mac (uintDec (ttlOf lan.ttl mac)) } := by
  unfold Remove
  rw [hH]
  simp only [ttlOf_mapSet_self, ht, if_false]

/-! ## The liveness invariant -/

theorem mapHas_mapSet {α : Type} (m : GoMap α) (k k' : String) (v : α) :
    mapHas (mapSet m k v) k' = (decide (k' = k) || mapHas m k') := by
  by_cases h : k' = k
  · subst h
    simp only [mapHas, mapGet_mapSet_self, Option.isSome_some, decide_True, Bool.true_or]
  · simp only [mapHas, mapGet_mapSet_ne m k k' v h, h, decide_False, Bool.false_or]

theorem mapHas_mapDelete {α : Type} (m : GoMap α) (k k' : String) :
    mapHas (mapDelete m k) k' = (!decide (k' = k) && mapHas m k') := by
  by_cases h : k' = k
  · subst h
    simp only [mapHas, mapGet_mapDelete_self, Option.isSome_none, decide_True, Bool.not_true,
      Bool.false_and]
  · simp only [mapHas, mapGet_mapDelete_ne m k k' h, h, decide_False, Bool.not_false,
      Bool.true_and]

theorem mapHas_of_get {α : Type} {m : GoMap α} {k : String} {v : α} (h : mapGet m k = some v) :
    mapHas m k = true := by
  simp only [mapHas, h, Option.isSome_some]

theorem get_of_mapHas {α : Type} {m : GoMap α} {k : String} (h : mapHas m k = true) :
    ∃ v, mapGet m k = some v := by
  cases hg : mapGet m k with
  | none => simp [mapHas, hg] at h
  | some v => exact ⟨v, rfl⟩

/-- Under the invariant a key of `Hosts` has a counter between 1 and `LANDefaultttl`. -/
theorem LivenessInv.counter {lan : LAN} (h : LivenessInv lan) {k : String} {e : Ptr}
    (hH : mapGet lan.Hosts k = some e) :
    ∃ t, mapGet lan.ttl k = some t ∧ 1 ≤ t ∧ t ≤ LANDefaultttl := by
  have h1 : mapHas lan.ttl k = true := by
    rw [← h.1 k]
    exact mapHas_of_get hH
  obtain ⟨t, ht⟩ := get_of_mapHas h1
  exact ⟨t, ht, h.2 k t ht⟩

theorem LivenessInv_NewLAN (iface gateway : Endpoint) (aliases : Aliases) :
    LivenessInv (NewLAN iface gateway aliases) := by
  refine ⟨fun k => rfl, fun k t h => ?_⟩
  simp [NewLAN, mapGet] at h

theorem LivenessInv_AddIfNew (env : Env) (lan : LAN) (ip mac : String) (h : LivenessInv lan) :
    LivenessInv (AddIfNew env lan ip mac).1 := by
  obtain ⟨hk, hv⟩ := h
  cases hs : shouldIgnore env lan ip (env.NormalizeMac mac) with
  | true =>
    rw [AddIfNew_of_ignore env lan ip mac hs]
    exact ⟨hk, hv⟩
  | false =>
    cases hH : mapGet lan.Hosts (env.NormalizeMac mac) with
    | none =>
      rw [AddIfNew_of_new env lan ip mac hs hH]
      refine ⟨fun k => ?_, fun k t hkt => ?_⟩
      · show mapHas (mapSet lan.Hosts _ _) k = mapHas (mapSet lan.ttl _ _) k
        rw [mapHas_mapSet, mapHas_mapSet, hk]
      · have hkt' : mapGet (mapSet lan.ttl (env.NormalizeMac mac) LANDefaultttl) k = some t := hkt
        by_cases hkm : k = env.NormalizeMac mac
        · rw [hkm, mapGet_mapSet_self] at hkt'
          cases hkt'
          exact ⟨by decide, le_refl _⟩
        · rw [mapGet_mapSet_ne _ _ _ _ hkm] at hkt'
          exact hv k t hkt'
    | some e =>
      by_cases ht : ttlOf lan.ttl (env.NormalizeMac mac) < LANDefaultttl
      · rw [AddIfNew_of_known_lt env lan ip mac e hs hH ht]
        refine ⟨fun k => ?_, fun k t hkt => ?_⟩
        · show mapHas lan.Hosts k = mapHas (mapSet lan.ttl _ _) k
          rw [mapHas_mapSet]
          by_cases hkm : k = env.NormalizeMac mac
          · rw [hkm, mapHas_of_get hH]
            simp only [decide_True, Bool.true_or]
          · simp only [hkm, decide_False, Bool.false_or, hk]
        · have hkt' : mapGet (mapSet lan.ttl (env.NormalizeMac mac)
              (ttlOf lan.ttl (env.NormalizeMac mac) + 1)) k = some t := hkt
          by_cases hkm : k = env.NormalizeMac mac
          · rw [hkm, mapGet_mapSet_self] at hkt'
            cases hkt'
            exact ⟨Nat.le_add_left 1 _, ht⟩
          · rw [mapGet_mapSet_ne _ _ _ _ hkm] at hkt'
            exact hv k t hkt'
      · rw [AddIfNew_of_known_ge env lan ip mac e hs hH ht]
        exact ⟨hk, hv⟩

theorem ten_lt_uintModulus : LANDefaultttl < uintModulus := by decide

theorem LivenessInv_Remove (lan : LAN) (ip mac : String) (h : LivenessInv lan) :
    LivenessInv (Remove lan ip mac) := by
  cases hH : mapGet lan.Hosts mac with
  | none =>
    rw [Remove_of_absent lan ip mac hH]
    exact h
  | some e =>
    obtain ⟨t, ht, ht1, ht10⟩ := h.counter hH
    obtain ⟨hk, hv⟩ := h
    have hdec : uintDec (ttlOf lan.ttl mac) = t - 1 := by
      rw [ttlOf_of_get ht]
      exact uintDec_of_pos ht1 (lt_of_le_of_lt ht10 ten_lt_uintModulus)
    by_cases hz : t - 1 = 0
    · rw [Remove_of_last lan ip mac e hH (hdec.trans hz)]
      refine ⟨fun k => ?_, fun k t' hkt => ?_⟩
      · show mapHas (mapDelete lan.Hosts mac) k = mapHas (mapDelete lan.ttl mac) k
        rw [mapHas_mapDelete, mapHas_mapDelete, hk]
      · have hkt' : mapGet (mapDelete lan.ttl mac) k = some t' := hkt
        by_cases hkm : k = mac
        · rw [hkm, mapGet_mapDelete_self] at hkt'
          cases hkt'
        · rw [mapGet_mapDelete_ne _ _ _ hkm] at hkt'
          exact hv k t' hkt'
    · rw [Remove_of_more lan ip mac e hH (by rw [hdec]; exact hz), hdec]
      refine ⟨fun k => ?_, fun k t' hkt => ?_⟩
      · show mapHas lan.Hosts k = mapHas (mapSet lan.ttl mac (t - 1)) k
        rw [mapHas_mapSet]
        by_cases hkm : k = mac
        · rw [hkm, mapHas_of_get hH]
          simp only [decide_True, Bool.true_or]
        · simp only [hkm, decide_False, Bool.false_or, hk]
      · have hkt' : mapGet (mapSet lan.ttl mac (t - 1)) k = some t' := hkt
        by_cases hkm : k = mac
        · rw [hkm, mapGet_mapSet_self] at hkt'
          cases hkt'
          exact ⟨by omega, by omega⟩
        · rw [mapGet_mapSet_ne _ _ _ _ hkm] at hkt'
          exact hv k t' hkt'

theorem SetAliasFor_frame (env : Env) (lan : LAN) (mac name : String) :
    (SetAliasFor env lan mac name).1.Hosts = lan.Hosts ∧
    (SetAliasFor env lan mac name).1.ttl = lan.ttl ∧
    (SetAliasFor env lan mac name).1.events = lan.events ∧
    (SetAliasFor env lan mac name).1.iface = lan.iface ∧
    (SetAliasFor env lan mac name).1.gateway = lan.gateway := by
  cases h : mapGet lan.Hosts (env.NormalizeMac mac) with
  | none => simp only [SetAliasFor, h, and_self]
  | some e => simp only [SetAliasFor, h, and_self]

theorem LivenessInv_SetAliasFor (env : Env) (lan : LAN) (mac name : String)
    (h : LivenessInv lan) : LivenessInv (SetAliasFor env lan mac name).1 := by
  obtain ⟨hH, hT, -⟩ := SetAliasFor_frame env lan mac name
  unfold LivenessInv
  rw [hH, hT]
  exact h

theorem LivenessInv_exec (env : Env) (lan : LAN) (c : Call) (h : LivenessInv lan) :
    LivenessInv (c.exec env lan) := by
  cases c with
  | addIfNew ip mac => exact LivenessInv_AddIfNew env lan ip mac h
  | remove ip mac => exact LivenessInv_Remove lan ip mac h
  | setAliasFor mac name => exact LivenessInv_SetAliasFor env lan mac name h

theorem LivenessInv_run (env : Env) (calls : List Call) (lan : LAN) (h : LivenessInv lan) :
    LivenessInv (run env lan calls) := by
  induction calls generalizing lan with
  | nil => exact h
  | cons c cs ih => exact ih (c.exec env lan) (LivenessInv_exec env lan c h)

theorem Reachable.livenessInv {env : Env} {lan : LAN} (h : Reachable env lan) :
    LivenessInv lan := by
  obtain ⟨iface, gateway, aliases, calls, rfl⟩ := h
  exact LivenessInv_run env calls _ (LivenessInv_NewLAN iface gateway aliases)

theorem Reachable.faded : Reachable stdEnv fadedEx :=
  ⟨ifaceEx, gatewayEx, [], _, rfl⟩

theorem Remove_counter_more (lan : LAN) (ip mac : String) (e : Ptr) (t : Nat)
    (hH : mapGet lan.Hosts mac = some e) (hT : mapGet lan.ttl mac = some t)
    (h1 : 1 < t) (h2 : t < uintModulus) :
    Remove lan ip mac = { lan with ttl := mapSet lan.ttl mac (t - 1) } := by
  have hdec : uintDec (ttlOf lan.ttl mac) = t - 1 := by
    rw [ttlOf_of_get hT]
    exact uintDec_of_pos (le_of_lt h1) h2
  rw [Remove_of_more lan ip mac e hH (by rw [hdec]; omega), hdec]

theorem Remove_counter_last (lan : LAN) (ip mac : String) (e : Ptr)
    (hH : mapGet lan.Hosts mac = some e) (hT : mapGet lan.ttl mac = some 1) :
    Remove lan ip mac =
      { lan with Hosts := mapDelete lan.Hosts mac, ttl := mapDelete lan.ttl mac,
                 events := lan.events ++ [Event.lostCb e] } := by
  have hdec : uintDec (ttlOf lan.ttl mac) = 0 := by
    rw [ttlOf_of_get hT]
    decide
  exact Remove_of_last lan ip mac e hH hdec

theorem lostCount_append_lost (events : List Event) (e : Ptr) :
    lostCount (events ++ [Event.lostCb e]) = lostCount events + 1 := by
  simp [lostCount, List.filter_append]

/-- The re-sighting branch of `AddIfNew` for a known MAC with counter `t`: the counter is
raised by one when it is below `LANDefaultttl` and is left alone otherwise. -/
theorem AddIfNew_known_counter (env : Env) (lan : LAN) (ip mac : String) (e : Ptr) (t : Nat)
    (hpass : shouldIgnore env lan ip (env.NormalizeMac mac) = false)
    (hkey : mapGet lan.Hosts (env.NormalizeMac mac) = some e)
    (httl : mapGet lan.ttl (env.NormalizeMac mac) = some t) :
    (AddIfNew env lan ip mac).2 = some e ∧
    mapGet (AddIfNew env lan ip mac).1.ttl (env.NormalizeMac mac)
      = some (if t < LANDefaultttl then t + 1 else t) ∧
    (AddIfNew env lan ip mac).1.events = lan.events ∧
    (AddIfNew env lan ip mac).1.Hosts = lan.Hosts ∧
    (AddIfNew env lan ip mac).1.heap = lan.heap := by
  have hof : ttlOf lan.ttl (env.NormalizeMac mac) = t := ttlOf_of_get httl
  by_cases hlt : t < LANDefaultttl
  · rw [AddIfNew_of_known_lt env lan ip mac e hpass hkey (by rw [hof]; exact hlt), hof, if_pos hlt]
    exact ⟨rfl, mapGet_mapSet_self _ _ _, rfl, rfl, rfl⟩
  · rw [AddIfNew_of_known_ge env lan ip mac e hpass hkey (by rw [hof]; exact hlt), if_neg hlt]
    exact ⟨rfl, httl, rfl, rfl, rfl⟩

/-! ## Re-sighting, missed sweeps and decay -/

/-- C3: in a registry state reached through the methods, an observation that passes the
filter and whose normalized MAC is a key of `Hosts` with liveness `t` makes `AddIfNew`
return the stored endpoint (not nil), set the liveness to `min (t + 1) 10`, which is
never above 10, invoke no callback and leave `Hosts` and the endpoints as they were. -/
theorem AddIfNew_resighting (env : Env) (lan : LAN) (ip mac : String) (e : Ptr) (t : Nat)
    (hr : Reachable env lan)
    (hpass : shouldIgnore env lan ip (env.NormalizeMac mac) = false)
    (hkey : mapGet lan.Hosts (env.NormalizeMac mac) = some e)
    (httl : mapGet lan.ttl (env.NormalizeMac mac) = some t) :
    (AddIfNew env lan ip mac).2 = some e ∧
    mapGet (AddIfNew env lan ip mac).1.ttl (env.NormalizeMac mac)
      = some (min (t + 1) LANDefaultttl) ∧
    min (t + 1) LANDefaultttl ≤ 10 ∧
    (AddIfNew env lan ip mac).1.events = lan.events ∧
    (AddIfNew env lan ip mac).1.Hosts = lan.Hosts ∧
    (AddIfNew env lan ip mac).1.heap = lan.heap := by
  have ht : t ≤ LANDefaultttl := (hr.livenessInv.2 _ t httl).2
  obtain ⟨hret, hcnt, hev, hhosts, hheap⟩ :=
    AddIfNew_known_counter env lan ip mac e t hpass hkey httl
  have hmin : (if t < LANDefaultttl then t + 1 else t) = min (t + 1) LANDefaultttl := by
    by_cases hlt : t < LANDefaultttl
    · rw [if_pos hlt, Nat.min_eq_left hlt]
    · have h10 : t = LANDefaultttl := le_antisymm ht (not_lt.mp hlt)
      rw [if_neg hlt, h10]
      decide
  rw [hmin] at hcnt
  exact ⟨hret, hcnt, Nat.min_le_right _ _, hev, hhosts, hheap⟩

/-- Witness of C3: a host with liveness 8 is seen again and gets liveness 9; a freshly
seen host, with liveness 10, is seen again and keeps liveness 10. -/
theorem AddIfNew_resighting_witness :
    (Reachable stdEnv fadedEx ∧
      shouldIgnore stdEnv fadedEx "192.168.1.50" (stdEnv.NormalizeMac "AA-BB-CC-DD-EE-77") = false ∧
      mapGet fadedEx.Hosts (stdEnv.NormalizeMac "AA-BB-CC-DD-EE-77") = some 0 ∧
      mapGet fadedEx.ttl (stdEnv.NormalizeMac "AA-BB-CC-DD-EE-77") = some 8) ∧
    ((AddIfNew stdEnv fadedEx "192.168.1.50" "AA-BB-CC-DD-EE-77").2 = some 0 ∧
      mapGet (AddIfNew stdEnv fadedEx "192.168.1.50" "AA-BB-CC-DD-EE-77").1.ttl
        (stdEnv.NormalizeMac "AA-BB-CC-DD-EE-77") = some (min (8 + 1) LANDefaultttl)) ∧
    mapGet (AddIfNew stdEnv seenEx "192.168.1.50" "AA-BB-CC-DD-EE-77").1.ttl
      (stdEnv.NormalizeMac "AA-BB-CC-DD-EE-77") = some (min (10 + 1) LANDefaultttl) :=
  have h := AddIfNew_resighting stdEnv fadedEx "192.168.1.50" "AA-BB-CC-DD-EE-77" 0 8
    Reachable.faded (by decide) (by decide) (by decide)
  ⟨⟨Reachable.faded, by decide, by decide, by decide⟩, ⟨h.1, h.2.1⟩,
    (AddIfNew_resighting stdEnv seenEx "192.168.1.50" "AA-BB-CC-DD-EE-77" 0 10
      ⟨ifaceEx, gatewayEx, [], _, rfl⟩ (by decide) (by decide) (by decide)).2.1⟩

/-- C4: in a reachable state, `Remove(ip, mac)` leaves the state as it was and invokes no
callback when `mac` is not a key of `Hosts`; a key of `Hosts` has a liveness `t` of at
least 1; for `t` above 1 the liveness becomes `t - 1`, `Hosts` is unchanged and no
callback is invoked; for `t = 1` the key leaves both `Hosts` and `ttl` in that call and
`lostCb` is invoked once, with the endpoint that was stored under `mac`. -/
theorem Remove_one_miss (env : Env) (lan : LAN) (ip mac : String) (hr : Reachable env lan) :
    (mapGet lan.Hosts mac = none → Remove lan ip mac = lan) ∧
    (∀ e, mapGet lan.Hosts mac = some e → ∃ t, mapGet lan.ttl mac = some t ∧ 1 ≤ t) ∧
    (∀ e t, mapGet lan.Hosts mac = some e → mapGet lan.ttl mac = some t → 1 < t →
      mapGet (Remove lan ip mac).ttl mac = some (t - 1) ∧
      (Remove lan ip mac).Hosts = lan.Hosts ∧
      (Remove lan ip mac).events = lan.events) ∧
    (∀ e, mapGet lan.Hosts mac = some e → mapGet lan.ttl mac = some 1 →
      mapGet (Remove lan ip mac).Hosts mac = none ∧
      mapGet (Remove lan ip mac).ttl mac = none ∧
      (Remove lan ip mac).events = lan.events ++ [Event.lostCb e]) := by
  have hinv := hr.livenessInv
  refine ⟨fun hH => Remove_of_absent lan ip mac hH, fun e hH => ?_, fun e t hH hT h1 => ?_,
    fun e hH hT => ?_⟩
  · obtain ⟨t, ht, ht1, -⟩ := hinv.counter hH
    exact ⟨t, ht, ht1⟩
  · have h10 : t ≤ LANDefaultttl := (hinv.2 mac t hT).2
    rw [Remove_counter_more lan ip mac e t hH hT h1 (lt_of_le_of_lt h10 ten_lt_uintModulus)]
    exact ⟨mapGet_mapSet_self _ _ _, rfl, rfl⟩
  · rw [Remove_counter_last lan ip mac e hH hT]
    exact ⟨mapGet_mapDelete_self _ _, mapGet_mapDelete_self _ _, rfl⟩

/-- Witness of C4: a host with liveness 8 in a reachable state is missed once more. -/
theorem Remove_one_miss_witness :
    Reachable stdEnv fadedEx ∧
    mapGet (Remove fadedEx "192.168.1.50" "aa:bb:cc:dd:ee:77").ttl "aa:bb:cc:dd:ee:77"
      = some (8 - 1) ∧
    (Remove fadedEx "192.168.1.50" "aa:bb:cc:dd:ee:77").Hosts = fadedEx.Hosts ∧
    (Remove fadedEx "192.168.1.50" "aa:bb:cc:dd:ee:77").events = fadedEx.events :=
  ⟨Reachable.faded,
    (Remove_one_miss stdEnv fadedEx "192.168.1.50" "aa:bb:cc:dd:ee:77" Reachable.faded).2.2.1
      0 8 (by decide) (by decide) (by decide)⟩

/-- C5: when `M` is a key of `Hosts` with liveness `k` between 1 and 10, consecutive
`Remove` calls for `M`, one per entry of `ips`, behave as follows: after fewer than `k`
calls `M` is still in `Hosts` with liveness `k` minus the number of calls and no
callback has been invoked; after exactly `k` calls `M` is in neither `Hosts` nor `ttl`
and `lostCb` has been invoked exactly once, with the stored endpoint.  For `k = 10`
these are the ten calls of the decay to eviction. -/
theorem Remove_decay (lan : LAN) (M : String) (e : Ptr) (k : Nat) (ips : List String)
    (hk1 : 1 ≤ k) (hk10 : k ≤ LANDefaultttl)
    (hH : mapGet lan.Hosts M = some e) (hT : mapGet lan.ttl M = some k) :
    (ips.length < k →
      mapGet (removeEach lan ips M).Hosts M = some e ∧
      mapGet (removeEach lan ips M).ttl M = some (k - ips.length) ∧
      (removeEach lan ips M).events = lan.events) ∧
    (ips.length = k →
      mapGet (removeEach lan ips M).Hosts M = none ∧
      mapGet (removeEach lan ips M).ttl M = none ∧
      (removeEach lan ips M).events = lan.events ++ [Event.lostCb e] ∧
      lostCount (removeEach lan ips M).events = lostCount lan.events + 1) := by
  induction ips generalizing lan k with
  | nil =>
    refine ⟨fun _ => ⟨hH, hT, rfl⟩, fun h0 => ?_⟩
    simp only [List.length_nil] at h0
    omega
  | cons ip ips ih =>
    have hcons : removeEach lan (ip :: ips) M = removeEach (Remove lan ip M) ips M := rfl
    rw [hcons]
    by_cases h1 : 1 < k
    · have hstep := Remove_counter_more lan ip M e k hH hT h1
        (lt_of_le_of_lt hk10 ten_lt_uintModulus)
      have hH' : mapGet (Remove lan ip M).Hosts M = some e := by rw [hstep]; exact hH
      have hT' : mapGet (Remove lan ip M).ttl M = some (k - 1) := by
        rw [hstep]
        exact mapGet_mapSet_self _ _ _
      have hE' : (Remove lan ip M).events = lan.events := by rw [hstep]
      obtain ⟨ihlt, iheq⟩ := ih (Remove lan ip M) (k - 1) (by omega) (by omega) hH' hT'
      rw [hE'] at ihlt iheq
      simp only [List.length_cons]
      refine ⟨fun hlen => ?_, fun hlen => iheq (by omega)⟩
      have := ihlt (by omega)
      rw [show k - (ips.length + 1) = k - 1 - ips.length by omega]
      exact this
    · have hk : k = 1 := by omega
      subst hk
      have hstep := Remove_counter_last lan ip M e hH hT
      simp only [List.length_cons]
      refine ⟨fun hlen => by omega, fun hlen => ?_⟩
      have hnil : ips = [] := List.length_eq_zero.mp (by omega)
      subst hnil
      show mapGet (Remove lan ip M).Hosts M = none ∧ mapGet (Remove lan ip M).ttl M = none ∧
        (Remove lan ip M).events = lan.events ++ [Event.lostCb e] ∧
        lostCount (Remove lan ip M).events = lostCount lan.events + 1
      rw [hstep]
      exact ⟨mapGet_mapDelete_self _ _, mapGet_mapDelete_self _ _, rfl,
        lostCount_append_lost _ _⟩

/-- A freshly observed host has liveness 10. -/
theorem seenEx_state :
    mapGet seenEx.Hosts "aa:bb:cc:dd:ee:77" = some 0 ∧
    mapGet seenEx.ttl "aa:bb:cc:dd:ee:77" = some 10 := by
  decide

/-- Witness of C5: right after its first accepted `AddIfNew` a host has liveness 10; ten
`Remove` calls evict it with one `lostCb`, nine leave it in `Hosts` with liveness 1. -/
theorem Remove_decay_witness :
    (1 ≤ 10 ∧ 10 ≤ LANDefaultttl) ∧
    (mapGet (removeEach seenEx ["", "", "", "", "", "", "", "", "", ""]
        "aa:bb:cc:dd:ee:77").Hosts "aa:bb:cc:dd:ee:77" = none ∧
      mapGet (removeEach seenEx ["", "", "", "", "", "", "", "", "", ""]
        "aa:bb:cc:dd:ee:77").ttl "aa:bb:cc:dd:ee:77" = none ∧
      (removeEach seenEx ["", "", "", "", "", "", "", "", "", ""]
        "aa:bb:cc:dd:ee:77").events = seenEx.events ++ [Event.lostCb 0] ∧
      lostCount (removeEach seenEx ["", "", "", "", "", "", "", "", "", ""]
        "aa:bb:cc:dd:ee:77").events = lostCount seenEx.events + 1) ∧
    (mapGet (removeEach seenEx ["", "", "", "", "", "", "", "", ""]
        "aa:bb:cc:dd:ee:77").Hosts "aa:bb:cc:dd:ee:77" = some 0 ∧
      mapGet (removeEach seenEx ["", "", "", "", "", "", "", "", ""]
        "aa:bb:cc:dd:ee:77").ttl "aa:bb:cc:dd:ee:77" = some (10 - 9) ∧
      (removeEach seenEx ["", "", "", "", "", "", "", "", ""]
        "aa:bb:cc:dd:ee:77").events = seenEx.events) :=
  ⟨⟨by decide, by decide⟩,
    (Remove_decay seenEx "aa:bb:cc:dd:ee:77" 0 10 ["", "", "", "", "", "", "", "", "", ""]
      (by decide) (by decide) seenEx_state.1 seenEx_state.2).2 rfl,
    (Remove_decay seenEx "aa:bb:cc:dd:ee:77" 0 10 ["", "", "", "", "", "", "", "", ""]
      (by decide) (by decide) seenEx_state.1 seenEx_state.2).1 (by decide)⟩

/-- C6: in every state a freshly constructed registry reaches through `AddIfNew`,
`Remove` and `SetAliasFor` (the queries change no state), `Hosts` and `ttl` have the same
keys and every liveness counter lies between 1 and 10; so the counter that `Remove`
decrements is at least 1 and the decrement of the `uint` does not wrap. -/
theorem reachable_liveness (env : Env) (lan : LAN) (hr : Reachable env lan) :
    (∀ k, mapHas lan.Hosts k = true ↔ mapHas lan.ttl k = true) ∧
    (∀ k t, mapGet lan.ttl k = some t → 1 ≤ t ∧ t ≤ 10) ∧
    (∀ k, mapHas lan.Hosts k = true →
      1 ≤ ttlOf lan.ttl k ∧ uintDec (ttlOf lan.ttl k) + 1 = ttlOf lan.ttl k) := by
  have hinv := hr.livenessInv
  refine ⟨fun k => by rw [hinv.1 k], fun k t h => hinv.2 k t h, fun k hk => ?_⟩
  obtain ⟨e, he⟩ := get_of_mapHas hk
  obtain ⟨t, ht, ht1, ht10⟩ := hinv.counter he
  rw [ttlOf_of_get ht, uintDec_of_pos ht1 (lt_of_le_of_lt ht10 ten_lt_uintModulus)]
  exact ⟨ht1, by omega⟩

/-- Witness of C6: the state after one sighting and two missed sweeps. -/
theorem reachable_liveness_witness :
    Reachable stdEnv fadedEx ∧
    (mapHas fadedEx.Hosts "aa:bb:cc:dd:ee:77" = true ↔
      mapHas fadedEx.ttl "aa:bb:cc:dd:ee:77" = true) ∧
    (1 ≤ ttlOf fadedEx.ttl "aa:bb:cc:dd:ee:77" ∧
      uintDec (ttlOf fadedEx.ttl "aa:bb:cc:dd:ee:77") + 1 = ttlOf fadedEx.ttl "aa:bb:cc:dd:ee:77") :=
  ⟨Reachable.faded,
    (reachable_liveness stdEnv fadedEx Reachable.faded).1 "aa:bb:cc:dd:ee:77",
    (reachable_liveness stdEnv fadedEx Reachable.faded).2.2 "aa:bb:cc:dd:ee:77" (by decide)⟩

/-! ## Where the keys of `Hosts` come from -/

theorem AddIfNew_frame (env : Env) (lan : LAN) (ip mac : String) :
    (AddIfNew env lan ip mac).1.iface = lan.iface ∧
    (AddIfNew env lan ip mac).1.gateway = lan.gateway := by
  cases hs : shouldIgnore env lan ip (env.NormalizeMac mac) with
  | true => rw [AddIfNew_of_ignore env lan ip mac hs]; exact ⟨rfl, rfl⟩
  | false =>
    cases hH : mapGet lan.Hosts (env.NormalizeMac mac) with
    | none => rw [AddIfNew_of_new env lan ip mac hs hH]; exact ⟨rfl, rfl⟩
    | some e =>
      by_cases ht : ttlOf lan.ttl (env.NormalizeMac mac) < LANDefaultttl
      · rw [AddIfNew_of_known_lt env lan ip mac e hs hH ht]; exact ⟨rfl, rfl⟩
      · rw [AddIfNew_of_known_ge env lan ip mac e hs hH ht]; exact ⟨rfl, rfl⟩

theorem Remove_frame (lan : LAN) (ip mac : String) :
    (Remove lan ip mac).iface = lan.iface ∧ (Remove lan ip mac).gateway = lan.gateway := by
  cases hH : mapGet lan.Hosts mac with
  | none => rw [Remove_of_absent lan ip mac hH]; exact ⟨rfl, rfl⟩
  | some e =>
    by_cases ht : uintDec (ttlOf lan.ttl mac) = 0
    · rw [Remove_of_last lan ip mac e hH ht]; exact ⟨rfl, rfl⟩
    · rw [Remove_of_more lan ip mac e hH ht]; exact ⟨rfl, rfl⟩

theorem exec_frame (env : Env) (lan : LAN) (c : Call) :
    (c.exec env lan).iface = lan.iface ∧ (c.exec env lan).gateway = lan.gateway := by
  cases c with
  | addIfNew ip mac => exact AddIfNew_frame env lan ip mac
  | remove ip mac => exact Remove_frame lan ip mac
  | setAliasFor mac name =>
    exact ⟨(SetAliasFor_frame env lan mac name).2.2.2.1, (SetAliasFor_frame env lan mac name).2.2.2.2⟩

/-- A key that one call adds to `Hosts` is the normalized MAC of an `AddIfNew` that
passed the filter. -/
theorem exec_key_origin (env : Env) (lan : LAN) (c : Call) (K : String)
    (h : mapHas (c.exec env lan).Hosts K = true) :
    mapHas lan.Hosts K = true ∨
    ∃ ip mac, c = Call.addIfNew ip mac ∧ env.NormalizeMac mac = K ∧
      shouldIgnore env lan ip K = false := by
  cases c with
  | addIfNew ip mac =>
    have h' : mapHas (AddIfNew env lan ip mac).1.Hosts K = true := h
    cases hs : shouldIgnore env lan ip (env.NormalizeMac mac) with
    | true =>
      rw [AddIfNew_of_ignore env lan ip mac hs] at h'
      exact Or.inl h'
    | false =>
      cases hH : mapGet lan.Hosts (env.NormalizeMac mac) with
      | none =>
        rw [AddIfNew_of_new env lan ip mac hs hH] at h'
        have h'' : mapHas (mapSet lan.Hosts (env.NormalizeMac mac) lan.heap.length) K = true := h'
        rw [mapHas_mapSet] at h''
        by_cases hK : K = env.NormalizeMac mac
        · exact Or.inr ⟨ip, mac, rfl, hK.symm, by rw [hK]; exact hs⟩
        · simp only [hK, decide_False, Bool.false_or] at h''
          exact Or.inl h''
      | some e =>
        by_cases ht : ttlOf lan.ttl (env.NormalizeMac mac) < LANDefaultttl
        · rw [AddIfNew_of_known_lt env lan ip mac e hs hH ht] at h'
          exact Or.inl h'
        · rw [AddIfNew_of_known_ge env lan ip mac e hs hH ht] at h'
          exact Or.inl h'
  | remove ip mac =>
    have h' : mapHas (Remove lan ip mac).Hosts K = true := h
    cases hH : mapGet lan.Hosts mac with
    | none =>
      rw [Remove_of_absent lan ip mac hH] at h'
      exact Or.inl h'
    | some e =>
      by_cases ht : uintDec (ttlOf lan.ttl mac) = 0
      · rw [Remove_of_last lan ip mac e hH ht] at h'
        have h'' : mapHas (mapDelete lan.Hosts mac) K = true := h'
        rw [mapHas_mapDelete] at h''
        exact Or.inl (Bool.and_eq_true_iff.mp h'').2
      · rw [Remove_of_more lan ip mac e hH ht] at h'
        exact Or.inl h'
  | setAliasFor mac name =>
    have h' : mapHas (SetAliasFor env lan mac name).1.Hosts K = true := h
    rw [(SetAliasFor_frame env lan mac name).1] at h'
    exact Or.inl h'

/-- A key of `Hosts` after a run was a key before it or is the normalized MAC of an
`AddIfNew` of the run that passed the filter. -/
theorem run_key_origin (env : Env) (calls : List Call) (lan : LAN) (K : String)
    (h : mapHas (run env lan calls).Hosts K = true) :
    mapHas lan.Hosts K = true ∨
    ∃ ip mac, Call.addIfNew ip mac ∈ calls ∧ env.NormalizeMac mac = K ∧
      shouldIgnore env lan ip K = false := by
  induction calls generalizing lan with
  | nil => exact Or.inl h
  | cons c cs ih =>
    have hf := exec_frame env lan c
    rcases ih (c.exec env lan) h with h1 | ⟨ip, mac, hm, hn, hs⟩
    · rcases exec_key_origin env lan c K h1 with h2 | ⟨ip, mac, hc, hn, hs⟩
      · exact Or.inl h2
      · exact Or.inr ⟨ip, mac, by rw [hc]; exact List.mem_cons_self _ _, hn, hs⟩
    · refine Or.inr ⟨ip, mac, List.mem_cons_of_mem _ hm, hn, ?_⟩
      rw [← shouldIgnore_congr env lan (c.exec env lan) ip K hf.1 hf.2]
      exact hs

/-! ## The interface and the gateway -/

/-- Counterexample to C7 as stated: the observation of the interface's own MAC with
another IP of the subnet passes the filter, so the reachable state after it has the
interface's `HwAddress` as a key of `Hosts`. -/
theorem self_key_counterexample :
    Reachable stdEnv selfSeenEx ∧
    selfSeenEx = (AddIfNew stdEnv (NewLAN ifaceEx gatewayEx []) "192.168.1.50"
      "aa:bb:cc:dd:ee:01").1 ∧
    selfSeenEx.iface.HwAddress = "aa:bb:cc:dd:ee:01" ∧
    shouldIgnore stdEnv freshEx "192.168.1.50" (stdEnv.NormalizeMac "aa:bb:cc:dd:ee:01") = false ∧
    mapHas selfSeenEx.Hosts selfSeenEx.iface.HwAddress = true :=
  ⟨⟨ifaceEx, gatewayEx, [], _, rfl⟩, by decide, by decide, by decide, by decide⟩

/-- C7 (amended): the interface and the gateway are kept out by IP address, not by MAC.
In a state reached from a freshly constructed registry by `AddIfNew`, `Remove` and
`SetAliasFor` calls, the interface's or the gateway's `HwAddress` is a key of `Hosts`
only if one of the calls was an `AddIfNew(ip, mac)` whose normalized MAC is that address
and which passed the filter, hence with an IP other than the interface's and the
gateway's. -/
theorem self_gateway_key_origin (env : Env) (iface gateway : Endpoint) (aliases : Aliases)
    (calls : List Call) (K : String)
    (hK : K = iface.HwAddress ∨ K = gateway.HwAddress)
    (hkey : mapHas (run env (NewLAN iface gateway aliases) calls).Hosts K = true) :
    ∃ ip mac, Call.addIfNew ip mac ∈ calls ∧
      (env.NormalizeMac mac = iface.HwAddress ∨ env.NormalizeMac mac = gateway.HwAddress) ∧
      env.NormalizeMac mac = K ∧
      shouldIgnore env (NewLAN iface gateway aliases) ip (env.NormalizeMac mac) = false ∧
      ip ≠ iface.IpAddress ∧ ip ≠ gateway.IpAddress := by
  rcases run_key_origin env calls (NewLAN iface gateway aliases) K hkey with h | ⟨ip, mac, hm, hn, hs⟩
  · exact absurd h (by simp [NewLAN, mapHas, mapGet])
  · have hip := shouldIgnore_false_ip env (NewLAN iface gateway aliases) ip K hs
    exact ⟨ip, mac, hm, by rw [hn]; exact hK, hn, by rw [hn]; exact hs, hip.1, hip.2⟩

/-- Witness of C7 (amended): the interface's MAC became a key through an accepted
observation with the IP 192.168.1.50. -/
theorem self_gateway_key_origin_witness :
    (("aa:bb:cc:dd:ee:01" = ifaceEx.HwAddress ∨ "aa:bb:cc:dd:ee:01" = gatewayEx.HwAddress) ∧
      mapHas (run stdEnv (NewLAN ifaceEx gatewayEx [])
        [Call.addIfNew "192.168.1.50" "aa:bb:cc:dd:ee:01"]).Hosts "aa:bb:cc:dd:ee:01" = true) ∧
    ∃ ip mac, Call.addIfNew ip mac ∈ [Call.addIfNew "192.168.1.50" "aa:bb:cc:dd:ee:01"] ∧
      (stdEnv.NormalizeMac mac = ifaceEx.HwAddress ∨
        stdEnv.NormalizeMac mac = gatewayEx.HwAddress) ∧
      stdEnv.NormalizeMac mac = "aa:bb:cc:dd:ee:01" ∧
      shouldIgnore stdEnv (NewLAN ifaceEx gatewayEx []) ip (stdEnv.NormalizeMac mac) = false ∧
      ip ≠ ifaceEx.IpAddress ∧ ip ≠ gatewayEx.IpAddress :=
  ⟨⟨Or.inl (by decide), by decide⟩,
    self_gateway_key_origin stdEnv ifaceEx gatewayEx []
      [Call.addIfNew "192.168.1.50" "aa:bb:cc:dd:ee:01"] "aa:bb:cc:dd:ee:01"
      (Or.inl (by decide)) (by decide)⟩

/-- Counterexample to C8 as stated: in the reachable state `selfSeenEx` the interface's
`HwAddress` is a key of `Hosts` with liveness 10, and `Remove` with that MAC lowers the
liveness to 9. -/
theorem Remove_self_counterexample :
    selfSeenEx.iface.HwAddress = "aa:bb:cc:dd:ee:01" ∧
    mapGet selfSeenEx.Hosts "aa:bb:cc:dd:ee:01" = some 0 ∧
    mapGet selfSeenEx.ttl "aa:bb:cc:dd:ee:01" = some 10 ∧
    mapGet (Remove selfSeenEx "192.168.1.50" "aa:bb:cc:dd:ee:01").ttl "aa:bb:cc:dd:ee:01"
      = some 9 := by
  decide

/-- C8 (amended): `Remove` has no guard for the interface or the gateway.  For every
registry state, `Remove(ip, mac)` leaves the whole state as it was, invoking no callback,
when `mac` is not a key of `Hosts`, as for the interface's or the gateway's `HwAddress`
when it is not a key; when `mac` is a key of `Hosts`, whichever MAC it is, its counter is
decremented: either the new counter is not 0 and is stored, with `Hosts` and the callback
log unchanged, or it is 0 and the key leaves `Hosts` and `ttl` with one `lostCb`. -/
theorem Remove_decrements_iff_key (lan : LAN) (ip mac : String) :
    (mapHas lan.Hosts mac = false → Remove lan ip mac = lan) ∧
    (∀ e, mapGet lan.Hosts mac = some e →
      (uintDec (ttlOf lan.ttl mac) ≠ 0 →
        mapGet (Remove lan ip mac).ttl mac = some (uintDec (ttlOf lan.ttl mac)) ∧
        (Remove lan ip mac).Hosts = lan.Hosts ∧
        (Remove lan ip mac).events = lan.events) ∧
      (uintDec (ttlOf lan.ttl mac) = 0 →
        mapGet (Remove lan ip mac).Hosts mac = none ∧
        mapGet (Remove lan ip mac).ttl mac = none ∧
        (Remove lan ip mac).events = lan.events ++ [Event.lostCb e])) := by
  refine ⟨fun h => ?_, fun e hH => ⟨fun ht => ?_, fun ht => ?_⟩⟩
  · cases hH : mapGet lan.Hosts mac with
    | none => exact Remove_of_absent lan ip mac hH
    | some e => rw [mapHas_of_get hH] at h; cases h
  · rw [Remove_of_more lan ip mac e hH ht]
    exact ⟨mapGet_mapSet_self _ _ _, rfl, rfl⟩
  · rw [Remove_of_last lan ip mac e hH ht]
    exact ⟨mapGet_mapDelete_self _ _, mapGet_mapDelete_self _ _, rfl⟩

/-- Witness of C8 (amended): on the fresh registry `Remove` with the interface's MAC
changes nothing; in `selfSeenEx`, where that MAC is a key, it stores the counter 9. -/
theorem Remove_decrements_iff_key_witness :
    Remove freshEx "192.168.1.10" freshEx.iface.HwAddress = freshEx ∧
    mapGet (Remove selfSeenEx "192.168.1.50" "aa:bb:cc:dd:ee:01").ttl "aa:bb:cc:dd:ee:01"
      = some (uintDec (ttlOf selfSeenEx.ttl "aa:bb:cc:dd:ee:01")) :=
  ⟨(Remove_decrements_iff_key freshEx "192.168.1.10" freshEx.iface.HwAddress).1 (by decide),
    (((Remove_decrements_iff_key selfSeenEx "192.168.1.50" "aa:bb:cc:dd:ee:01").2 0
      (by decide)).1 (by decide)).1⟩

/-! ## The freshness probe -/

/-- C9: `WasMissed(mac)` is false when `mac` is the interface's or the gateway's
`HwAddress`; otherwise it is true exactly when `mac` has no liveness entry or its
liveness is below 10, and, in every registry state reached through the methods, false
exactly when its liveness is 10.  The first two parts hold for every value of the
fields, where `WasMissed` is false exactly when the liveness is at least 10. -/
theorem WasMissed_characterisation (lan : LAN) (mac : String) :
    (mac = lan.iface.HwAddress ∨ mac = lan.gateway.HwAddress → WasMissed lan mac = false) ∧
    (mac ≠ lan.iface.HwAddress → mac ≠ lan.gateway.HwAddress →
      (WasMissed lan mac = true ↔
        mapGet lan.ttl mac = none ∨ ∃ t, mapGet lan.ttl mac = some t ∧ t < 10) ∧
      (WasMissed lan mac = false ↔ ∃ t, mapGet lan.ttl mac = some t ∧ 10 ≤ t) ∧
      ∀ env, Reachable env lan → (WasMissed lan mac = false ↔ mapGet lan.ttl mac = some 10)) := by
  refine ⟨fun h => ?_, fun h1 h2 => ?_⟩
  · simp only [WasMissed, h, if_true]
  · have hw : WasMissed lan mac =
        match mapGet lan.ttl mac with
        | some ttl => decide (ttl < LANDefaultttl)
        | none => true := by
      simp only [WasMissed, h1, h2, or_self, if_false]
    rw [hw]
    cases hT : mapGet lan.ttl mac with
    | none =>
      refine ⟨by simp, by simp, fun env _ => by simp⟩
    | some t =>
      refine ⟨by simp [LANDefaultttl], by simp [LANDefaultttl], fun env hr => ?_⟩
      have hb := hr.livenessInv.2 mac t hT
      simp only [LANDefaultttl] at hb ⊢
      simp only [decide_eq_false_iff_not, not_lt, Option.some.injEq]
      omega

/-- Witness of C9: the interface's MAC is never missed; a host with liveness 8 was
missed; a freshly seen host, with liveness 10, was not, and only liveness 10 makes
`WasMissed` false there. -/
theorem WasMissed_characterisation_witness :
    WasMissed fadedEx fadedEx.iface.HwAddress = false ∧
    (WasMissed fadedEx "aa:bb:cc:dd:ee:77" = true ↔
      mapGet fadedEx.ttl "aa:bb:cc:dd:ee:77" = none ∨
        ∃ t, mapGet fadedEx.ttl "aa:bb:cc:dd:ee:77" = some t ∧ t < 10) ∧
    (WasMissed seenEx "aa:bb:cc:dd:ee:77" = false ↔
      mapGet seenEx.ttl "aa:bb:cc:dd:ee:77" = some 10) ∧
    (WasMissed fadedEx "aa:bb:cc:dd:ee:77" = false ↔
      mapGet fadedEx.ttl "aa:bb:cc:dd:ee:77" = some 10) ∧
    WasMissed seenEx "aa:bb:cc:dd:ee:77" = false ∧
    WasMissed fadedEx "aa:bb:cc:dd:ee:77" = true :=
  ⟨(WasMissed_characterisation fadedEx fadedEx.iface.HwAddress).1 (Or.inl rfl),
    ((WasMissed_characterisation fadedEx "aa:bb:cc:dd:ee:77").2 (by decide) (by decide)).1,
    ((WasMissed_characterisation seenEx "aa:bb:cc:dd:ee:77").2 (by decide) (by decide)).2.2
      stdEnv ⟨ifaceEx, gatewayEx, [], _, rfl⟩,
    ((WasMissed_characterisation fadedEx "aa:bb:cc:dd:ee:77").2 (by decide) (by decide)).2.2
      stdEnv Reachable.faded,
    by decide, by decide⟩

/-- Counterexample to C10 as stated: a host seen once and missed twice has liveness 8;
its next accepted observation raises the liveness to 9 only, and `WasMissed` for its
normalized MAC is true right after that `AddIfNew`. -/
theorem fresh_after_observe_counterexample :
    Reachable stdEnv fadedEx ∧
    shouldIgnore stdEnv fadedEx "192.168.1.50" (stdEnv.NormalizeMac "AA-BB-CC-DD-EE-77") = false ∧
    mapGet fadedEx.ttl (stdEnv.NormalizeMac "AA-BB-CC-DD-EE-77") = some 8 ∧
    mapGet (AddIfNew stdEnv fadedEx "192.168.1.50" "AA-BB-CC-DD-EE-77").1.ttl
      (stdEnv.NormalizeMac "AA-BB-CC-DD-EE-77") = some 9 ∧
    WasMissed (AddIfNew stdEnv fadedEx "192.168.1.50" "AA-BB-CC-DD-EE-77").1
      (stdEnv.NormalizeMac "AA-BB-CC-DD-EE-77") = true :=
  ⟨⟨ifaceEx, gatewayEx, [], _, rfl⟩, by decide, by decide, by decide, by decide⟩

/-- C10 (amended): in a reachable state, for an observation `(ip, M)` that passes the
filter and the normalized form `M'` of `M`: `WasMissed(M')` right after `AddIfNew(ip, M)`
is false when the call created the entry, and when it re-sighted an entry whose liveness
was 9 or 10; when it re-sighted an entry with liveness below 9 and `M'` is neither the
interface's nor the gateway's `HwAddress`, it is true, as a re-sighting raises the
liveness by one only. -/
theorem WasMissed_after_AddIfNew (env : Env) (lan : LAN) (ip mac : String)
    (hr : Reachable env lan)
    (hpass : shouldIgnore env lan ip (env.NormalizeMac mac) = false) :
    (mapGet lan.Hosts (env.NormalizeMac mac) = none →
      WasMissed (AddIfNew env lan ip mac).1 (env.NormalizeMac mac) = false) ∧
    (∀ e t, mapGet lan.Hosts (env.NormalizeMac mac) = some e →
      mapGet lan.ttl (env.NormalizeMac mac) = some t → 9 ≤ t →
      WasMissed (AddIfNew env lan ip mac).1 (env.NormalizeMac mac) = false) ∧
    (∀ e t, mapGet lan.Hosts (env.NormalizeMac mac) = some e →
      mapGet lan.ttl (env.NormalizeMac mac) = some t → t < 9 →
      env.NormalizeMac mac ≠ lan.iface.HwAddress →
      env.NormalizeMac mac ≠ lan.gateway.HwAddress →
      WasMissed (AddIfNew env lan ip mac).1 (env.NormalizeMac mac) = true) := by
  have hinv := hr.livenessInv
  have hf := AddIfNew_frame env lan ip mac
  have hfresh : ∀ l : LAN, mapGet l.ttl (env.NormalizeMac mac) = some 10 →
      WasMissed l (env.NormalizeMac mac) = false := by
    intro l hl
    unfold WasMissed
    rw [hl]
    simp [LANDefaultttl]
  refine ⟨fun hH => hfresh _ ?_, fun e t hH hT h9 => hfresh _ ?_, fun e t hH hT h9 h1 h2 => ?_⟩
  · rw [AddIfNew_of_new env lan ip mac hpass hH]
    exact mapGet_mapSet_self _ _ _
  · have h10 : t ≤ LANDefaultttl := (hinv.2 _ t hT).2
    have hres := (AddIfNew_known_counter env lan ip mac e t hpass hH hT).2.1
    rw [hres]
    simp only [LANDefaultttl] at h10 ⊢
    congr 1
    split <;> omega
  · have hres := (AddIfNew_known_counter env lan ip mac e t hpass hH hT).2.1
    have hlt : t < LANDefaultttl := by simp only [LANDefaultttl]; omega
    rw [if_pos hlt] at hres
    unfold WasMissed
    rw [hf.1, hf.2, hres]
    simp only [h1, h2, or_self, if_false, LANDefaultttl]
    simp only [decide_eq_true_eq]
    omega

/-- Witness of C10 (amended): on the fresh registry the first accepted observation of a
host leaves `WasMissed` false for its normalized MAC. -/
theorem WasMissed_after_AddIfNew_witness :
    (Reachable stdEnv freshEx ∧
      shouldIgnore stdEnv freshEx "192.168.1.50" (stdEnv.NormalizeMac "AA-BB-CC-DD-EE-77") = false ∧
      mapGet freshEx.Hosts (stdEnv.NormalizeMac "AA-BB-CC-DD-EE-77") = none) ∧
    WasMissed (AddIfNew stdEnv freshEx "192.168.1.50" "AA-BB-CC-DD-EE-77").1
      (stdEnv.NormalizeMac "AA-BB-CC-DD-EE-77") = false :=
  ⟨⟨⟨ifaceEx, gatewayEx, [], [], rfl⟩, by decide, by decide⟩,
    (WasMissed_after_AddIfNew stdEnv freshEx "192.168.1.50" "AA-BB-CC-DD-EE-77"
      ⟨ifaceEx, gatewayEx, [], [], rfl⟩ (by decide)).1 (by decide)⟩

/-- Outside the interface's and the gateway's MAC, `WasMissed` is the test on `ttl`. -/
theorem WasMissed_of_other (lan : LAN) (mac : String)
    (h1 : mac ≠ lan.iface.HwAddress) (h2 : mac ≠ lan.gateway.HwAddress) :
    WasMissed lan mac =
      match mapGet lan.ttl mac with
      | some ttl => decide (ttl < LANDefaultttl)
      | none => true := by
  simp only [WasMissed, h1, h2, or_self, if_false]

/-- C11: in a reachable state, for a MAC `M` that is neither the interface's nor the
gateway's `HwAddress`, `WasMissed(M)` right after `Remove(ip, M)` is true: when `M` was
not a key nothing changes and `M` has no liveness entry, when its liveness was above 1
the new liveness is below 10, and when it was 1 the entry is gone. -/
theorem WasMissed_after_Remove (env : Env) (lan : LAN) (ip M : String)
    (hr : Reachable env lan)
    (h1 : M ≠ lan.iface.HwAddress) (h2 : M ≠ lan.gateway.HwAddress) :
    WasMissed (Remove lan ip M) M = true := by
  have hinv := hr.livenessInv
  have hf := Remove_frame lan ip M
  rw [WasMissed_of_other _ _ (by rw [hf.1]; exact h1) (by rw [hf.2]; exact h2)]
  cases hH : mapGet lan.Hosts M with
  | none =>
    have hT : mapGet lan.ttl M = none := by
      have hk := hinv.1 M
      simp only [mapHas, hH, Option.isSome_none] at hk
      cases hT : mapGet lan.ttl M with
      | none => rfl
      | some t => rw [hT] at hk; cases hk
    rw [Remove_of_absent lan ip M hH, hT]
  | some e =>
    obtain ⟨t, hT, ht1, ht10⟩ := hinv.counter hH
    by_cases hone : 1 < t
    · rw [Remove_counter_more lan ip M e t hH hT hone (lt_of_le_of_lt ht10 ten_lt_uintModulus)]
      show (match mapGet (mapSet lan.ttl M (t - 1)) M with
        | some ttl => decide (ttl < LANDefaultttl)
        | none => true) = true
      rw [mapGet_mapSet_self]
      exact decide_eq_true (by omega)
    · have ht : t = 1 := by omega
      rw [ht] at hT
      rw [Remove_counter_last lan ip M e hH hT]
      show (match mapGet (mapDelete lan.ttl M) M with
        | some ttl => decide (ttl < LANDefaultttl)
        | none => true) = true
      rw [mapGet_mapDelete_self]

/-- Witness of C11: a freshly seen host is missed once (liveness 10 to 9). -/
theorem WasMissed_after_Remove_witness :
    (Reachable stdEnv seenEx ∧ "aa:bb:cc:dd:ee:77" ≠ seenEx.iface.HwAddress ∧
      "aa:bb:cc:dd:ee:77" ≠ seenEx.gateway.HwAddress) ∧
    WasMissed (Remove seenEx "192.168.1.50" "aa:bb:cc:dd:ee:77") "aa:bb:cc:dd:ee:77" = true :=
  ⟨⟨⟨ifaceEx, gatewayEx, [], _, rfl⟩, by decide, by decide⟩,
    WasMissed_after_Remove stdEnv seenEx "192.168.1.50" "aa:bb:cc:dd:ee:77"
      ⟨ifaceEx, gatewayEx, [], _, rfl⟩ (by decide) (by decide)⟩

/-! ## Aliases -/

theorem SetAliasFor_of_known (env : Env) (lan : LAN) (mac name : String) (e : Ptr)
    (hH : mapGet lan.Hosts (env.NormalizeMac mac) = some e) :
    SetAliasFor env lan mac name =
      ({ lan with aliases := lan.aliases.Set (env.NormalizeMac mac) name,
                  heap := setAlias lan.heap e name }, true) := by
  simp only [SetAliasFor, hH]

theorem SetAliasFor_of_unknown (env : Env) (lan : LAN) (mac name : String)
    (hH : mapGet lan.Hosts (env.NormalizeMac mac) = none) :
    SetAliasFor env lan mac name = (lan, false) := by
  simp only [SetAliasFor, hH]

/-- The write of `Alias` through an allocated address is read back through it. -/
theorem setAlias_self (heap : List Endpoint) (p : Ptr) (name : String) (ep : Endpoint)
    (hp : heap[p]? = some ep) :
    (setAlias heap p name)[p]? = some { ep with Alias := name } := by
  have hlt : p < heap.length := by
    rcases Nat.lt_or_ge p heap.length with h | h
    · exact h
    · rw [List.getElem?_eq_none h] at hp
      cases hp
  simp only [setAlias, hp]
  exact List.getElem?_set_self hlt

/-- The write of `Alias` through `p` leaves every other address as it was. -/
theorem setAlias_other (heap : List Endpoint) (p q : Ptr) (name : String) (h : p ≠ q) :
    (setAlias heap p name)[q]? = heap[q]? := by
  unfold setAlias
  cases heap[p]? with
  | none => rfl
  | some ep => exact List.getElem?_set_ne h

theorem setAlias_length (heap : List Endpoint) (p : Ptr) (name : String) :
    (setAlias heap p name).length = heap.length := by
  unfold setAlias
  cases heap[p]? with
  | none => rfl
  | some ep => exact List.length_set _ _ _

/-- C12: `SetAliasFor(mac, name)` returns true exactly when the normalized MAC is a key of
`Hosts`.  When it returns true the alias store has been set to (normalized MAC, name) and
the `Alias` of the endpoint stored under that key is `name`; when it returns false the
whole state, alias store and endpoints included, is as it was.  The address stored
under the key is that of an allocated endpoint. -/
theorem SetAliasFor_contract (env : Env) (lan : LAN) (mac name : String)
    (hvalid : ∀ e, mapGet lan.Hosts (env.NormalizeMac mac) = some e →
      (deref lan e).isSome = true) :
    ((SetAliasFor env lan mac name).2 = true ↔
      mapHas lan.Hosts (env.NormalizeMac mac) = true) ∧
    ((SetAliasFor env lan mac name).2 = true →
      (SetAliasFor env lan mac name).1.aliases
        = lan.aliases.Set (env.NormalizeMac mac) name ∧
      (SetAliasFor env lan mac name).1.aliases.Get (env.NormalizeMac mac) = name ∧
      ∃ e ep, mapGet (SetAliasFor env lan mac name).1.Hosts (env.NormalizeMac mac) = some e ∧
        deref (SetAliasFor env lan mac name).1 e = some ep ∧ ep.Alias = name) ∧
    ((SetAliasFor env lan mac name).2 = false → (SetAliasFor env lan mac name).1 = lan) := by
  cases hH : mapGet lan.Hosts (env.NormalizeMac mac) with
  | none =>
    rw [SetAliasFor_of_unknown env lan mac name hH]
    refine ⟨?_, ?_, fun _ => rfl⟩
    · simp only [mapHas, hH, Option.isSome_none]
    · intro h
      cases h
  | some e =>
    rw [SetAliasFor_of_known env lan mac name e hH]
    refine ⟨?_, fun _ => ⟨rfl, ?_, ?_⟩, ?_⟩
    · simp only [mapHas, hH, Option.isSome_some]
    · show Aliases.Get (Aliases.Set lan.aliases (env.NormalizeMac mac) name)
        (env.NormalizeMac mac) = name
      simp only [Aliases.Get, Aliases.Set, mapGet_mapSet_self, Option.getD_some]
    · obtain ⟨ep, hep⟩ := Option.isSome_iff_exists.mp (hvalid e hH)
      exact ⟨e, { ep with Alias := name }, hH, setAlias_self lan.heap e name ep hep, rfl⟩
    · intro h
      cases h

/-- Witness of C12: the seen host is renamed through the raw form of its MAC. -/
theorem SetAliasFor_contract_witness :
    (∀ e, mapGet seenEx.Hosts (stdEnv.NormalizeMac "AA-BB-CC-DD-EE-77") = some e →
      (deref seenEx e).isSome = true) ∧
    ((SetAliasFor stdEnv seenEx "AA-BB-CC-DD-EE-77" "printer").2 = true ↔
      mapHas seenEx.Hosts (stdEnv.NormalizeMac "AA-BB-CC-DD-EE-77") = true) ∧
    (SetAliasFor stdEnv seenEx "AA-BB-CC-DD-EE-77" "printer").2 = true ∧
    deref (SetAliasFor stdEnv seenEx "AA-BB-CC-DD-EE-77" "printer").1 0
      = some (newEndpointModel "192.168.1.50" "aa:bb:cc:dd:ee:77" "printer") :=
  have hv : ∀ e, mapGet seenEx.Hosts (stdEnv.NormalizeMac "AA-BB-CC-DD-EE-77") = some e →
      (deref seenEx e).isSome = true := by
    intro e he
    have h0 : mapGet seenEx.Hosts (stdEnv.NormalizeMac "AA-BB-CC-DD-EE-77") = some 0 := by decide
    rw [h0] at he
    cases he
    decide
  ⟨hv, (SetAliasFor_contract stdEnv seenEx "AA-BB-CC-DD-EE-77" "printer" hv).1,
    by decide, by decide⟩

theorem AddIfNew_aliases (env : Env) (lan : LAN) (ip mac : String) :
    (AddIfNew env lan ip mac).1.aliases = lan.aliases := by
  cases hs : shouldIgnore env lan ip (env.NormalizeMac mac) with
  | true => rw [AddIfNew_of_ignore env lan ip mac hs]
  | false =>
    cases hH : mapGet lan.Hosts (env.NormalizeMac mac) with
    | none => rw [AddIfNew_of_new env lan ip mac hs hH]
    | some e =>
      by_cases ht : ttlOf lan.ttl (env.NormalizeMac mac) < LANDefaultttl
      · rw [AddIfNew_of_known_lt env lan ip mac e hs hH ht]
      · rw [AddIfNew_of_known_ge env lan ip mac e hs hH ht]

theorem Remove_aliases (lan : LAN) (ip mac : String) :
    (Remove lan ip mac).aliases = lan.aliases := by
  cases hH : mapGet lan.Hosts mac with
  | none => rw [Remove_of_absent lan ip mac hH]
  | some e =>
    by_cases ht : uintDec (ttlOf lan.ttl mac) = 0
    · rw [Remove_of_last lan ip mac e hH ht]
    · rw [Remove_of_more lan ip mac e hH ht]

/-- The name registered for `k` survives every run that does not rename `k`. -/
theorem run_aliases_Get (env : Env) (calls : List Call) (lan : LAN) (k : String)
    (h : ∀ mac name, Call.setAliasFor mac name ∈ calls → env.NormalizeMac mac ≠ k) :
    (run env lan calls).aliases.Get k = lan.aliases.Get k := by
  induction calls generalizing lan with
  | nil => rfl
  | cons c cs ih =>
    have hrest := ih (c.exec env lan) (fun mac name hm => h mac name (List.mem_cons_of_mem _ hm))
    show (run env (c.exec env lan) cs).aliases.Get k = lan.aliases.Get k
    rw [hrest]
    cases c with
    | addIfNew ip mac =>
      show (AddIfNew env lan ip mac).1.aliases.Get k = lan.aliases.Get k
      rw [AddIfNew_aliases]
    | remove ip mac =>
      show (Remove lan ip mac).aliases.Get k = lan.aliases.Get k
      rw [Remove_aliases]
    | setAliasFor mac name =>
      have hne : env.NormalizeMac mac ≠ k := h mac name (List.mem_cons_self _ _)
      show (SetAliasFor env lan mac name).1.aliases.Get k = lan.aliases.Get k
      cases hH : mapGet lan.Hosts (env.NormalizeMac mac) with
      | none => rw [SetAliasFor_of_unknown env lan mac name hH]
      | some e =>
        rw [SetAliasFor_of_known env lan mac name e hH]
        show Aliases.Get (Aliases.Set lan.aliases (env.NormalizeMac mac) name) k
          = Aliases.Get lan.aliases k
        simp only [Aliases.Get, Aliases.Set, mapGet_mapSet_ne _ _ _ _ (Ne.symm hne)]

/-- C13: with the alias store a map whose `Get` returns the last value `Set` for a key and
`NewEndpointWithAlias` recording the alias it is given: if `SetAliasFor(M, n)` returns
true, then calls that do not rename `M` (the `Remove` calls of the eviction) leave the
normalized `M` out of `Hosts`, and then an `AddIfNew(ip, M)` passes the filter, the
endpoint that call creates, passes to `newCb` and stores in `Hosts` has `Alias` `n`. -/
theorem alias_survives_eviction (env : Env) (lan : LAN) (M n ip : String) (mid : List Call)
    (hNew : ∀ ip mac a, (env.NewEndpointWithAlias ip mac a).Alias = a)
    (hset : (SetAliasFor env lan M n).2 = true)
    (hmid : ∀ mac name, Call.setAliasFor mac name ∈ mid →
      env.NormalizeMac mac ≠ env.NormalizeMac M)
    (hev : mapGet (run env (SetAliasFor env lan M n).1 mid).Hosts (env.NormalizeMac M) = none)
    (hpass : shouldIgnore env (run env (SetAliasFor env lan M n).1 mid) ip
      (env.NormalizeMac M) = false) :
    ∃ e ep,
      (AddIfNew env (run env (SetAliasFor env lan M n).1 mid) ip M).1.events
        = (run env (SetAliasFor env lan M n).1 mid).events ++ [Event.newCb e] ∧
      mapGet (AddIfNew env (run env (SetAliasFor env lan M n).1 mid) ip M).1.Hosts
        (env.NormalizeMac M) = some e ∧
      deref (AddIfNew env (run env (SetAliasFor env lan M n).1 mid) ip M).1 e = some ep ∧
      ep.Alias = n := by
  have hname : (run env (SetAliasFor env lan M n).1 mid).aliases.Get (env.NormalizeMac M) = n := by
    rw [run_aliases_Get env mid _ _ hmid]
    cases hH : mapGet lan.Hosts (env.NormalizeMac M) with
    | none =>
      rw [SetAliasFor_of_unknown env lan M n hH] at hset
      cases hset
    | some e =>
      rw [SetAliasFor_of_known env lan M n e hH]
      show Aliases.Get (Aliases.Set lan.aliases (env.NormalizeMac M) n) (env.NormalizeMac M) = n
      simp only [Aliases.Get, Aliases.Set, mapGet_mapSet_self, Option.getD_some]
  generalize run env (SetAliasFor env lan M n).1 mid = lan2 at hev hpass hname ⊢
  rw [AddIfNew_of_new env lan2 ip M hpass hev]
  refine ⟨lan2.heap.length, env.NewEndpointWithAlias ip (env.NormalizeMac M) n, rfl,
    mapGet_mapSet_self _ _ _, ?_, hNew _ _ _⟩
  show (lan2.heap ++ [env.NewEndpointWithAlias ip (env.NormalizeMac M)
    (lan2.aliases.Get (env.NormalizeMac M))])[lan2.heap.length]? = _
  rw [hname]
  simp

/-- Witness of C13: the seen host is named `printer`, evicted by ten `Remove` calls and
seen again with another IP; its new endpoint carries the alias. -/
theorem alias_survives_eviction_witness :
    ((SetAliasFor stdEnv seenEx "AA-BB-CC-DD-EE-77" "printer").2 = true ∧
      mapGet (run stdEnv (SetAliasFor stdEnv seenEx "AA-BB-CC-DD-EE-77" "printer").1
        (List.replicate 10 (Call.remove "192.168.1.50" "aa:bb:cc:dd:ee:77"))).Hosts
        (stdEnv.NormalizeMac "AA-BB-CC-DD-EE-77") = none) ∧
    ∃ e ep,
      (AddIfNew stdEnv (run stdEnv (SetAliasFor stdEnv seenEx "AA-BB-CC-DD-EE-77" "printer").1
        (List.replicate 10 (Call.remove "192.168.1.50" "aa:bb:cc:dd:ee:77")))
        "192.168.1.51" "AA-BB-CC-DD-EE-77").1.events
        = (run stdEnv (SetAliasFor stdEnv seenEx "AA-BB-CC-DD-EE-77" "printer").1
            (List.replicate 10 (Call.remove "192.168.1.50" "aa:bb:cc:dd:ee:77"))).events
          ++ [Event.newCb e] ∧
      mapGet (AddIfNew stdEnv (run stdEnv
        (SetAliasFor stdEnv seenEx "AA-BB-CC-DD-EE-77" "printer").1
        (List.replicate 10 (Call.remove "192.168.1.50" "aa:bb:cc:dd:ee:77")))
        "192.168.1.51" "AA-BB-CC-DD-EE-77").1.Hosts
        (stdEnv.NormalizeMac "AA-BB-CC-DD-EE-77") = some e ∧
      deref (AddIfNew stdEnv (run stdEnv
        (SetAliasFor stdEnv seenEx "AA-BB-CC-DD-EE-77" "printer").1
        (List.replicate 10 (Call.remove "192.168.1.50" "aa:bb:cc:dd:ee:77")))
        "192.168.1.51" "AA-BB-CC-DD-EE-77").1 e = some ep ∧
      ep.Alias = "printer" :=
  ⟨⟨by decide, by decide⟩,
    alias_survives_eviction stdEnv seenEx "AA-BB-CC-DD-EE-77" "printer" "192.168.1.51"
      (List.replicate 10 (Call.remove "192.168.1.50" "aa:bb:cc:dd:ee:77"))
      (fun _ _ _ => rfl) (by decide)
      (fun mac name hm => by
        have := (List.mem_replicate.mp hm).2
        cases this)
      (by decide) (by decide)⟩

/-! ## Lookups -/

/-- Counterexample to C14 as stated: after the accepted `AddIfNew` of the MAC written
`AA-BB-CC-DD-EE-77` its normalized form is a key of `Hosts`, but `Get` with the same
string finds nothing: `Get` looks its argument up as it is. -/
theorem Get_raw_counterexample :
    seenEx = (AddIfNew stdEnv freshEx "192.168.1.50" "AA-BB-CC-DD-EE-77").1 ∧
    shouldIgnore stdEnv freshEx "192.168.1.50" (stdEnv.NormalizeMac "AA-BB-CC-DD-EE-77") = false ∧
    mapGet seenEx.Hosts (stdEnv.NormalizeMac "AA-BB-CC-DD-EE-77") = some 0 ∧
    Get seenEx "AA-BB-CC-DD-EE-77" = (none, false) := by
  decide

/-- After an `AddIfNew` that passed the filter the normalized MAC is a key of `Hosts`. -/
theorem AddIfNew_key_present (env : Env) (lan : LAN) (ip mac : String)
    (hs : shouldIgnore env lan ip (env.NormalizeMac mac) = false) :
    ∃ e, mapGet (AddIfNew env lan ip mac).1.Hosts (env.NormalizeMac mac) = some e := by
  cases hH : mapGet lan.Hosts (env.NormalizeMac mac) with
  | none =>
    rw [AddIfNew_of_new env lan ip mac hs hH]
    exact ⟨lan.heap.length, mapGet_mapSet_self _ _ _⟩
  | some e =>
    by_cases ht : ttlOf lan.ttl (env.NormalizeMac mac) < LANDefaultttl
    · rw [AddIfNew_of_known_lt env lan ip mac e hs hH ht]
      exact ⟨e, hH⟩
    · rw [AddIfNew_of_known_ge env lan ip mac e hs hH ht]
      exact ⟨e, hH⟩

/-- C14 (amended): `Get` is an exact lookup, it does not normalize its argument.  For
every registry state and every string `m`, `Get(m)` returns `(e, true)` exactly when `m`
itself is a key of `Hosts`, with `e` the endpoint stored under it, and `(nil, false)`
otherwise; after an `AddIfNew(ip, m)` that passed the filter, `Get` of the normalized
form of `m` finds the endpoint stored under it. -/
theorem Get_exact (lan : LAN) (m : String) :
    (∀ e, Get lan m = (some e, true) ↔ mapGet lan.Hosts m = some e) ∧
    (Get lan m = (none, false) ↔ mapGet lan.Hosts m = none) ∧
    (∀ (env : Env) (ip : String),
      shouldIgnore env lan ip (env.NormalizeMac m) = false →
      ∃ e, mapGet (AddIfNew env lan ip m).1.Hosts (env.NormalizeMac m) = some e ∧
        Get (AddIfNew env lan ip m).1 (env.NormalizeMac m) = (some e, true)) := by
  refine ⟨fun e => ?_, ?_, fun env ip hs => ?_⟩
  · cases hH : mapGet lan.Hosts m with
    | none => simp [Get, hH]
    | some e' => simp [Get, hH]
  · cases hH : mapGet lan.Hosts m with
    | none => simp [Get, hH]
    | some e' => simp [Get, hH]
  · obtain ⟨e, he⟩ := AddIfNew_key_present env lan ip m hs
    exact ⟨e, he, by simp only [Get, he]⟩

/-- Witness of C14 (amended): the host seen as `AA-BB-CC-DD-EE-77` is found under the
normalized form of that string. -/
theorem Get_exact_witness :
    (Get seenEx "aa:bb:cc:dd:ee:77" = (some 0, true) ↔
      mapGet seenEx.Hosts "aa:bb:cc:dd:ee:77" = some 0) ∧
    ∃ e, mapGet (AddIfNew stdEnv freshEx "192.168.1.50" "AA-BB-CC-DD-EE-77").1.Hosts
        (stdEnv.NormalizeMac "AA-BB-CC-DD-EE-77") = some e ∧
      Get (AddIfNew stdEnv freshEx "192.168.1.50" "AA-BB-CC-DD-EE-77").1
        (stdEnv.NormalizeMac "AA-BB-CC-DD-EE-77") = (some e, true) :=
  ⟨(Get_exact seenEx "aa:bb:cc:dd:ee:77").1 0,
    (Get_exact freshEx "AA-BB-CC-DD-EE-77").2.2 stdEnv "192.168.1.50" (by decide)⟩

/-- C18: in a state reached from a freshly constructed registry, every key of `Hosts` and
every key of `ttl` is `NormalizeMac` of the MAC passed to an `AddIfNew` call of the run,
one that passed the filter: entries are inserted under the normalized form only. -/
theorem canonical_keys (env : Env) (iface gateway : Endpoint) (aliases : Aliases)
    (calls : List Call) (K : String)
    (hK : mapHas (run env (NewLAN iface gateway aliases) calls).Hosts K = true ∨
      mapHas (run env (NewLAN iface gateway aliases) calls).ttl K = true) :
    ∃ ip mac, Call.addIfNew ip mac ∈ calls ∧ K = env.NormalizeMac mac ∧
      shouldIgnore env (NewLAN iface gateway aliases) ip (env.NormalizeMac mac) = false := by
  have hinv := LivenessInv_run env calls _ (LivenessInv_NewLAN iface gateway aliases)
  have hH : mapHas (run env (NewLAN iface gateway aliases) calls).Hosts K = true := by
    rcases hK with h | h
    · exact h
    · rw [hinv.1 K]
      exact h
  rcases run_key_origin env calls (NewLAN iface gateway aliases) K hH with h | ⟨ip, mac, hm, hn, hs⟩
  · exact absurd h (by simp [NewLAN, mapHas, mapGet])
  · exact ⟨ip, mac, hm, hn.symm, by rw [hn]; exact hs⟩

/-- Witness of C18: the key of the seen host is the normalized form of the observed MAC. -/
theorem canonical_keys_witness :
    mapHas (run stdEnv (NewLAN ifaceEx gatewayEx [])
      [Call.addIfNew "192.168.1.50" "AA-BB-CC-DD-EE-77"]).Hosts "aa:bb:cc:dd:ee:77" = true ∧
    ∃ ip mac, Call.addIfNew ip mac ∈ [Call.addIfNew "192.168.1.50" "AA-BB-CC-DD-EE-77"] ∧
      "aa:bb:cc:dd:ee:77" = stdEnv.NormalizeMac mac ∧
      shouldIgnore stdEnv (NewLAN ifaceEx gatewayEx []) ip (stdEnv.NormalizeMac mac) = false :=
  ⟨by decide,
    canonical_keys stdEnv ifaceEx gatewayEx [] [Call.addIfNew "192.168.1.50" "AA-BB-CC-DD-EE-77"]
      "aa:bb:cc:dd:ee:77" (Or.inl (by decide))⟩

theorem mem_of_mapGet {α : Type} {m : GoMap α} {k : String} {v : α}
    (h : mapGet m k = some v) : (k, v) ∈ m := by
  induction m with
  | nil => simp [mapGet] at h
  | cons kv m ih =>
    obtain ⟨k', v'⟩ := kv
    by_cases hk : k' = k
    · simp only [mapGet, hk, if_true, Option.some.injEq] at h
      rw [hk, h]
      exact List.mem_cons_self _ _
    · simp only [mapGet, hk, if_false] at h
      exact List.mem_cons_of_mem _ (ih h)

theorem mapGet_none_of_not_key {α : Type} {m : GoMap α} {k : String}
    (h : k ∉ keys m) : mapGet m k = none := by
  cases hg : mapGet m k with
  | none => rfl
  | some v =>
    exact absurd (List.mem_map_of_mem Prod.fst (mem_of_mapGet hg)) h

theorem not_key_of_mapGet_none {α : Type} {m : GoMap α} {k : String}
    (h : mapGet m k = none) : k ∉ keys m := by
  induction m with
  | nil => simp [keys]
  | cons kv m ih =>
    obtain ⟨k', v'⟩ := kv
    by_cases hk : k' = k
    · simp [mapGet, hk] at h
    · simp only [mapGet, hk, if_false] at h
      simp only [keys, List.map_cons, List.mem_cons, not_or]
      exact ⟨fun hc => hk hc.symm, ih h⟩

/-- In a list that holds each key once, every binding is the one `mapGet` finds. -/
theorem mapGet_of_mem {α : Type} {m : GoMap α} {k : String} {v : α}
    (hnd : (keys m).Nodup) (h : (k, v) ∈ m) : mapGet m k = some v := by
  induction m with
  | nil => cases h
  | cons kv m ih =>
    obtain ⟨k', v'⟩ := kv
    simp only [keys, List.map_cons, List.nodup_cons] at hnd
    rcases List.mem_cons.mp h with heq | hmem
    · cases heq
      simp only [mapGet, if_true]
    · have hne : k' ≠ k := by
        intro hc
        exact hnd.1 (by rw [hc]; exact List.mem_map_of_mem Prod.fst hmem)
      simp only [mapGet, hne, if_false]
      exact ih hnd.2 hmem

theorem hasIp_iff (lan : LAN) (ip : String) (p : Ptr) :
    hasIp lan ip p = true ↔ ∃ e, deref lan p = some e ∧ e.IpAddress = ip := by
  unfold hasIp
  cases deref lan p with
  | none => simp
  | some e => simp

/-- C15: for every registry state, whose `Hosts` lists each key once as a Go map does,
and every `ip`: `Has(ip)` is true exactly when an endpoint stored in `Hosts` has
`IpAddress` `ip`; `GetByIp(ip)` is nil exactly when `Has(ip)` is false, and otherwise
it is an endpoint stored under a key of `Hosts` whose `IpAddress` is `ip`. -/
theorem ip_lookups (lan : LAN) (ip : String) (hmap : (keys lan.Hosts).Nodup) :
    (Has lan ip = true ↔
      ∃ k p e, mapGet lan.Hosts k = some p ∧ deref lan p = some e ∧ e.IpAddress = ip) ∧
    (GetByIp lan ip = none ↔ Has lan ip = false) ∧
    (∀ p, GetByIp lan ip = some p →
      ∃ k e, mapGet lan.Hosts k = some p ∧ deref lan p = some e ∧ e.IpAddress = ip) := by
  refine ⟨?_, ?_, fun p hp => ?_⟩
  · unfold Has
    rw [List.any_eq_true]
    constructor
    · rintro ⟨⟨k, p⟩, hmem, hip⟩
      obtain ⟨e, he, hee⟩ := (hasIp_iff lan ip p).mp hip
      exact ⟨k, p, e, mapGet_of_mem hmap hmem, he, hee⟩
    · rintro ⟨k, p, e, hk, he, hee⟩
      exact ⟨(k, p), mem_of_mapGet hk, (hasIp_iff lan ip p).mpr ⟨e, he, hee⟩⟩
  · unfold GetByIp Has
    rw [Option.map_eq_none', List.find?_eq_none, Bool.eq_false_iff]
    constructor
    · intro h hany
      obtain ⟨kv, hmem, hip⟩ := List.any_eq_true.mp hany
      exact h kv hmem hip
    · intro h kv hmem hip
      exact h (List.any_eq_true.mpr ⟨kv, hmem, hip⟩)
  · unfold GetByIp at hp
    obtain ⟨⟨k, q⟩, hfind, hq⟩ := Option.map_eq_some'.mp hp
    have hqp : q = p := hq
    subst hqp
    have hhit : hasIp lan ip q = true :=
      List.find?_some (p := fun kv : String × Ptr => hasIp lan ip kv.2) hfind
    obtain ⟨e, he, hee⟩ := (hasIp_iff lan ip q).mp hhit
    exact ⟨k, e, mapGet_of_mem hmap (List.mem_of_find?_eq_some hfind), he, hee⟩

/-- Witness of C15: the seen host is found by its IP and no host has the gateway's. -/
theorem ip_lookups_witness :
    (keys seenEx.Hosts).Nodup ∧
    (Has seenEx "192.168.1.50" = true ↔
      ∃ k p e, mapGet seenEx.Hosts k = some p ∧ deref seenEx p = some e ∧
        e.IpAddress = "192.168.1.50") ∧
    (GetByIp seenEx "192.168.1.1" = none ↔ Has seenEx "192.168.1.1" = false) ∧
    GetByIp seenEx "192.168.1.50" = some 0 ∧ GetByIp seenEx "192.168.1.1" = none :=
  ⟨by decide, (ip_lookups seenEx "192.168.1.50" (by decide)).1,
    (ip_lookups seenEx "192.168.1.1" (by decide)).2.1, by decide, by decide⟩

/-! ## The representation invariant -/

theorem mapSet_of_absent {α : Type} (m : GoMap α) (k : String) (v : α)
    (h : mapGet m k = none) : mapSet m k v = m ++ [(k, v)] := by
  induction m with
  | nil => rfl
  | cons kv m ih =>
    obtain ⟨k', v'⟩ := kv
    by_cases hk : k' = k
    · simp [mapGet, hk] at h
    · simp only [mapGet, hk, if_false] at h
      simp only [mapSet, hk, if_false, List.cons_append, ih h]

theorem mapDelete_sublist {α : Type} (m : GoMap α) (k : String) :
    List.Sublist (mapDelete m k) m := by
  induction m with
  | nil => exact List.Sublist.slnil
  | cons kv m ih =>
    obtain ⟨k', v'⟩ := kv
    by_cases hk : k' = k
    · simp only [mapDelete, hk, if_true]
      exact List.Sublist.cons _ ih
    · simp only [mapDelete, hk, if_false]
      exact List.Sublist.cons₂ _ ih

/-- Deleting a key of a list that holds each key once removes one binding. -/
theorem mapDelete_length {α : Type} (m : GoMap α) (k : String) (v : α)
    (hnd : (keys m).Nodup) (h : mapGet m k = some v) :
    (mapDelete m k).length + 1 = m.length := by
  induction m with
  | nil => simp [mapGet] at h
  | cons kv m ih =>
    obtain ⟨k', v'⟩ := kv
    simp only [keys, List.map_cons, List.nodup_cons] at hnd
    by_cases hk : k' = k
    · have habs : mapGet m k = none := mapGet_none_of_not_key (by rw [← hk]; exact hnd.1)
      simp only [mapDelete, hk, if_true, mapDelete_of_absent m k habs, List.length_cons]
    · simp only [mapGet, hk, if_false] at h
      simp only [mapDelete, hk, if_false, List.length_cons, ih hnd.2 h]

theorem HeapInv_NewLAN (iface gateway : Endpoint) (aliases : Aliases) :
    HeapInv (NewLAN iface gateway aliases) := by
  refine ⟨List.nodup_nil, List.nodup_nil, fun kv hkv => ?_⟩
  cases hkv

theorem HeapInv_AddIfNew (env : Env) (lan : LAN) (ip mac : String) (h : HeapInv lan) :
    HeapInv (AddIfNew env lan ip mac).1 := by
  cases hs : shouldIgnore env lan ip (env.NormalizeMac mac) with
  | true =>
    rw [AddIfNew_of_ignore env lan ip mac hs]
    exact h
  | false =>
    cases hH : mapGet lan.Hosts (env.NormalizeMac mac) with
    | none =>
      obtain ⟨hk, hv, hb⟩ := h
      rw [AddIfNew_of_new env lan ip mac hs hH]
      have hset := mapSet_of_absent lan.Hosts (env.NormalizeMac mac) lan.heap.length hH
      refine ⟨?_, ?_, ?_⟩
      · show (keys (mapSet lan.Hosts (env.NormalizeMac mac) lan.heap.length)).Nodup
        rw [hset]
        simp only [keys, List.map_append, List.map_cons, List.map_nil]
        refine List.Nodup.append hk (List.nodup_singleton _) ?_
        intro x hx hx'
        rw [List.mem_singleton] at hx'
        rw [hx'] at hx
        exact not_key_of_mapGet_none hH hx
      · show ((mapSet lan.Hosts (env.NormalizeMac mac) lan.heap.length).map Prod.snd).Nodup
        rw [hset]
        simp only [List.map_append, List.map_cons, List.map_nil]
        refine List.Nodup.append hv (List.nodup_singleton _) ?_
        intro x hx hx'
        rw [List.mem_singleton] at hx'
        obtain ⟨kv, hkv, hkvx⟩ := List.mem_map.mp hx
        have hlt := hb kv hkv
        rw [hkvx, hx'] at hlt
        exact Nat.lt_irrefl _ hlt
      · intro kv hkv
        have hkv' : kv ∈ mapSet lan.Hosts (env.NormalizeMac mac) lan.heap.length := hkv
        rw [hset] at hkv'
        show kv.2 < (lan.heap ++ [_]).length
        rw [List.length_append, List.length_singleton]
        rcases List.mem_append.mp hkv' with h1 | h1
        · exact Nat.lt_succ_of_lt (hb kv h1)
        · rw [List.mem_singleton] at h1
          rw [h1]
          exact Nat.lt_succ_self _
    | some e =>
      by_cases ht : ttlOf lan.ttl (env.NormalizeMac mac) < LANDefaultttl
      · rw [AddIfNew_of_known_lt env lan ip mac e hs hH ht]
        exact h
      · rw [AddIfNew_of_known_ge env lan ip mac e hs hH ht]
        exact h

theorem HeapInv_Remove (lan : LAN) (ip mac : String) (h : HeapInv lan) :
    HeapInv (Remove lan ip mac) := by
  cases hH : mapGet lan.Hosts mac with
  | none =>
    rw [Remove_of_absent lan ip mac hH]
    exact h
  | some e =>
    by_cases ht : uintDec (ttlOf lan.ttl mac) = 0
    · rw [Remove_of_last lan ip mac e hH ht]
      obtain ⟨hk, hv, hb⟩ := h
      have hsub := mapDelete_sublist lan.Hosts mac
      exact ⟨(hsub.map Prod.fst).nodup hk, (hsub.map Prod.snd).nodup hv,
        fun kv hkv => hb kv (hsub.subset hkv)⟩
    · rw [Remove_of_more lan ip mac e hH ht]
      exact h

theorem HeapInv_SetAliasFor (env : Env) (lan : LAN) (mac name : String) (h : HeapInv lan) :
    HeapInv (SetAliasFor env lan mac name).1 := by
  cases hH : mapGet lan.Hosts (env.NormalizeMac mac) with
  | none =>
    rw [SetAliasFor_of_unknown env lan mac name hH]
    exact h
  | some e =>
    rw [SetAliasFor_of_known env lan mac name e hH]
    refine ⟨h.1, h.2.1, fun kv hkv => ?_⟩
    show kv.2 < (setAlias lan.heap e name).length
    rw [setAlias_length]
    exact h.2.2 kv hkv

theorem HeapInv_exec (env : Env) (lan : LAN) (c : Call) (h : HeapInv lan) :
    HeapInv (c.exec env lan) := by
  cases c with
  | addIfNew ip mac => exact HeapInv_AddIfNew env lan ip mac h
  | remove ip mac => exact HeapInv_Remove lan ip mac h
  | setAliasFor mac name => exact HeapInv_SetAliasFor env lan mac name h

theorem HeapInv_run (env : Env) (calls : List Call) (lan : LAN) (h : HeapInv lan) :
    HeapInv (run env lan calls) := by
  induction calls generalizing lan with
  | nil => exact h
  | cons c cs ih => exact ih (c.exec env lan) (HeapInv_exec env lan c h)

theorem Reachable.heapInv {env : Env} {lan : LAN} (h : Reachable env lan) : HeapInv lan := by
  obtain ⟨iface, gateway, aliases, calls, rfl⟩ := h
  exact HeapInv_run env calls _ (HeapInv_NewLAN iface gateway aliases)

/-- Under the invariant the address stored under a key is that of an allocated endpoint. -/
theorem HeapInv.allocated {lan : LAN} (h : HeapInv lan) {k : String} {p : Ptr}
    (hk : mapGet lan.Hosts k = some p) : ∃ ep, deref lan p = some ep := by
  have hlt : p < lan.heap.length := h.2.2 (k, p) (mem_of_mapGet hk)
  exact ⟨lan.heap[p], by simp only [deref, List.getElem?_eq_getElem hlt]⟩

/-- Under the invariant two keys that hold the same endpoint are one key. -/
theorem HeapInv.key_unique {lan : LAN} (h : HeapInv lan) {k k' : String} {p : Ptr}
    (hk : mapGet lan.Hosts k = some p) (hk' : mapGet lan.Hosts k' = some p) : k = k' := by
  have := List.inj_on_of_nodup_map h.2.1 (mem_of_mapGet hk) (mem_of_mapGet hk') rfl
  exact congrArg Prod.fst this

/-! ## The snapshot of `List` -/

/-- In a list that holds each key once the values are what `mapGet` finds key by key. -/
theorem values_eq_filterMap {α : Type} (m : GoMap α) (hnd : (keys m).Nodup) :
    m.map Prod.snd = (keys m).filterMap (mapGet m) := by
  induction m with
  | nil => rfl
  | cons kv m ih =>
    obtain ⟨k, v⟩ := kv
    simp only [keys, List.map_cons, List.nodup_cons] at hnd
    have hrest : (keys m).filterMap (mapGet ((k, v) :: m)) = (keys m).filterMap (mapGet m) := by
      apply List.filterMap_congr
      intro k' hk'
      have hne : k ≠ k' := fun hc => hnd.1 (by rw [hc]; exact hk')
      simp only [mapGet, hne, if_false]
    have hhead : mapGet ((k, v) :: m) k = some v := by simp only [mapGet, if_true]
    show v :: m.map Prod.snd = (k :: keys m).filterMap (mapGet ((k, v) :: m))
    rw [List.filterMap_cons_some hhead, hrest, ih hnd.2]

theorem AddIfNew_deref (env : Env) (lan : LAN) (ip mac : String) (p : Ptr) (ep : Endpoint)
    (hp : deref lan p = some ep) : deref (AddIfNew env lan ip mac).1 p = some ep := by
  cases hs : shouldIgnore env lan ip (env.NormalizeMac mac) with
  | true => rw [AddIfNew_of_ignore env lan ip mac hs]; exact hp
  | false =>
    cases hH : mapGet lan.Hosts (env.NormalizeMac mac) with
    | none =>
      rw [AddIfNew_of_new env lan ip mac hs hH]
      have hlt : p < lan.heap.length := by
        rcases Nat.lt_or_ge p lan.heap.length with h | h
        · exact h
        · have : lan.heap[p]? = none := List.getElem?_eq_none h
          rw [show deref lan p = lan.heap[p]? from rfl, this] at hp
          cases hp
      show (lan.heap ++ [_])[p]? = some ep
      rw [List.getElem?_append_left hlt]
      exact hp
    | some e =>
      by_cases ht : ttlOf lan.ttl (env.NormalizeMac mac) < LANDefaultttl
      · rw [AddIfNew_of_known_lt env lan ip mac e hs hH ht]; exact hp
      · rw [AddIfNew_of_known_ge env lan ip mac e hs hH ht]; exact hp

theorem Remove_heap (lan : LAN) (ip mac : String) : (Remove lan ip mac).heap = lan.heap := by
  cases hH : mapGet lan.Hosts mac with
  | none => rw [Remove_of_absent lan ip mac hH]
  | some e =>
    by_cases ht : uintDec (ttlOf lan.ttl mac) = 0
    · rw [Remove_of_last lan ip mac e hH ht]
    · rw [Remove_of_more lan ip mac e hH ht]

/-- What an address holds after `SetAliasFor`: the `Alias` changes at the address stored
under the normalized MAC, and nowhere else. -/
theorem SetAliasFor_deref (env : Env) (lan : LAN) (mac name : String) (p : Ptr) (ep : Endpoint)
    (hp : deref lan p = some ep) :
    deref (SetAliasFor env lan mac name).1 p =
      some (if mapGet lan.Hosts (env.NormalizeMac mac) = some p
        then { ep with Alias := name } else ep) := by
  cases hH : mapGet lan.Hosts (env.NormalizeMac mac) with
  | none =>
    rw [SetAliasFor_of_unknown env lan mac name hH]
    have hne : ¬ ((none : Option Ptr) = some p) := fun hc => Option.noConfusion hc
    rw [if_neg hne]
    exact hp
  | some e =>
    rw [SetAliasFor_of_known env lan mac name e hH]
    by_cases hpe : e = p
    · subst hpe
      simp only [if_true]
      exact setAlias_self lan.heap e name ep hp
    · have hne : ¬ (some e = some p) := fun hc => hpe (Option.some.inj hc)
      simp only [hne, if_false]
      show (setAlias lan.heap e name)[p]? = some ep
      rw [setAlias_other lan.heap e p name hpe]
      exact hp

/-- A run without `SetAliasFor` leaves every allocated endpoint as it was. -/
theorem run_deref (env : Env) (calls : List Call) (lan : LAN) (p : Ptr) (ep : Endpoint)
    (hp : deref lan p = some ep)
    (hc : ∀ mac name, Call.setAliasFor mac name ∉ calls) :
    deref (run env lan calls) p = some ep := by
  induction calls generalizing lan with
  | nil => exact hp
  | cons c cs ih =>
    have hcs : ∀ mac name, Call.setAliasFor mac name ∉ cs :=
      fun mac name hm => hc mac name (List.mem_cons_of_mem _ hm)
    apply ih (c.exec env lan) _ hcs
    cases c with
    | addIfNew ip mac => exact AddIfNew_deref env lan ip mac p ep hp
    | remove ip mac =>
      show (Remove lan ip mac).heap[p]? = some ep
      rw [Remove_heap]
      exact hp
    | setAliasFor mac name => exact absurd (List.mem_cons_self _ _) (hc mac name)

/-- Counterexample to C16 as stated: the sequence `List()` returned for the seen host has
one endpoint, with the empty alias; after `SetAliasFor` renamed the host, the endpoint in
that earlier sequence has the alias `printer`. -/
theorem List_snapshot_counterexample :
    seenEx.List = [0] ∧
    seenEx.List.map (deref seenEx)
      = [some (newEndpointModel "192.168.1.50" "aa:bb:cc:dd:ee:77" "")] ∧
    (SetAliasFor stdEnv seenEx "aa:bb:cc:dd:ee:77" "printer").2 = true ∧
    seenEx.List.map (deref (SetAliasFor stdEnv seenEx "aa:bb:cc:dd:ee:77" "printer").1)
      = [some (newEndpointModel "192.168.1.50" "aa:bb:cc:dd:ee:77" "printer")] := by
  decide

/-- C16 (amended): for every registry state, whose `Hosts` lists each key once as a Go
map does, `List()` returns one entry per key of `Hosts`, the endpoint stored under it, so
its length is the number of keys.  The returned sequence is a copy of the pointers: later
`AddIfNew` and `Remove` calls leave every endpoint in it as it was, and a later
`SetAliasFor(mac, name)` changes the `Alias` of the endpoint stored under the normalized
`mac`, also as seen through the earlier sequence, and nothing else. -/
theorem List_snapshot (env : Env) (lan : LAN) (hmap : (keys lan.Hosts).Nodup) :
    lan.List.length = (keys lan.Hosts).length ∧
    lan.List = (keys lan.Hosts).filterMap (mapGet lan.Hosts) ∧
    (∀ (calls : List Call) (p : Ptr) (ep : Endpoint), p ∈ lan.List → deref lan p = some ep →
      (∀ mac name, Call.setAliasFor mac name ∉ calls) →
      deref (run env lan calls) p = some ep) ∧
    (∀ (mac name : String) (p : Ptr) (ep : Endpoint), p ∈ lan.List → deref lan p = some ep →
      deref (SetAliasFor env lan mac name).1 p =
        some (if mapGet lan.Hosts (env.NormalizeMac mac) = some p
          then { ep with Alias := name } else ep)) := by
  refine ⟨?_, values_eq_filterMap lan.Hosts hmap, ?_, ?_⟩
  · simp only [LAN.List, keys, List.length_map]
  · intro calls p ep _ hp hc
    exact run_deref env calls lan p ep hp hc
  · intro mac name p ep _ hp
    exact SetAliasFor_deref env lan mac name p ep hp

/-- Witness of C16 (amended): the snapshot of the seen host has one entry; a further
sighting and a missed sweep leave its endpoint as it was. -/
theorem List_snapshot_witness :
    (keys seenEx.Hosts).Nodup ∧
    seenEx.List.length = (keys seenEx.Hosts).length ∧
    deref (run stdEnv seenEx
      [Call.addIfNew "192.168.1.60" "aa:bb:cc:dd:ee:78", Call.remove "" "aa:bb:cc:dd:ee:77"]) 0
      = some (newEndpointModel "192.168.1.50" "aa:bb:cc:dd:ee:77" "") :=
  ⟨by decide, (List_snapshot stdEnv seenEx (by decide)).1,
    (List_snapshot stdEnv seenEx (by decide)).2.2.1
      [Call.addIfNew "192.168.1.60" "aa:bb:cc:dd:ee:78", Call.remove "" "aa:bb:cc:dd:ee:77"]
      0 _ (by decide) (by decide)
      (fun mac name hm => by
        rcases List.mem_cons.mp hm with h | h
        · cases h
        · rcases List.mem_cons.mp h with h | h
          · cases h
          · cases h)⟩

/-! ## Notification accounting -/

theorem newCount_append_new (events : List Event) (e : Ptr) :
    newCount (events ++ [Event.newCb e]) = newCount events + 1 := by
  simp [newCount, List.filter_append]

theorem newCount_append_lost (events : List Event) (e : Ptr) :
    newCount (events ++ [Event.lostCb e]) = newCount events := by
  simp [newCount, List.filter_append]

theorem lostCount_append_new (events : List Event) (e : Ptr) :
    lostCount (events ++ [Event.newCb e]) = lostCount events := by
  simp [lostCount, List.filter_append]

theorem AddIfNew_accounting (env : Env) (lan : LAN) (ip mac : String) :
    ((keys (AddIfNew env lan ip mac).1.Hosts).length = (keys lan.Hosts).length + 1 ∧
      ∃ e, (AddIfNew env lan ip mac).1.events = lan.events ++ [Event.newCb e]) ∨
    ((keys (AddIfNew env lan ip mac).1.Hosts).length + 1 = (keys lan.Hosts).length ∧
      ∃ e, (AddIfNew env lan ip mac).1.events = lan.events ++ [Event.lostCb e]) ∨
    ((AddIfNew env lan ip mac).1.Hosts = lan.Hosts ∧
      (AddIfNew env lan ip mac).1.events = lan.events) := by
  cases hs : shouldIgnore env lan ip (env.NormalizeMac mac) with
  | true =>
    rw [AddIfNew_of_ignore env lan ip mac hs]
    exact Or.inr (Or.inr ⟨rfl, rfl⟩)
  | false =>
    cases hH : mapGet lan.Hosts (env.NormalizeMac mac) with
    | none =>
      rw [AddIfNew_of_new env lan ip mac hs hH]
      refine Or.inl ⟨?_, lan.heap.length, rfl⟩
      show (keys (mapSet lan.Hosts (env.NormalizeMac mac) lan.heap.length)).length = _
      rw [mapSet_of_absent _ _ _ hH]
      simp only [keys, List.map_append, List.length_append, List.length_map,
        List.length_singleton]
    | some e =>
      by_cases ht : ttlOf lan.ttl (env.NormalizeMac mac) < LANDefaultttl
      · rw [AddIfNew_of_known_lt env lan ip mac e hs hH ht]
        exact Or.inr (Or.inr ⟨rfl, rfl⟩)
      · rw [AddIfNew_of_known_ge env lan ip mac e hs hH ht]
        exact Or.inr (Or.inr ⟨rfl, rfl⟩)

theorem Remove_accounting (lan : LAN) (ip mac : String) (hnd : (keys lan.Hosts).Nodup) :
    ((keys (Remove lan ip mac).Hosts).length = (keys lan.Hosts).length + 1 ∧
      ∃ e, (Remove lan ip mac).events = lan.events ++ [Event.newCb e]) ∨
    ((keys (Remove lan ip mac).Hosts).length + 1 = (keys lan.Hosts).length ∧
      ∃ e, (Remove lan ip mac).events = lan.events ++ [Event.lostCb e]) ∨
    ((Remove lan ip mac).Hosts = lan.Hosts ∧ (Remove lan ip mac).events = lan.events) := by
  cases hH : mapGet lan.Hosts mac with
  | none =>
    rw [Remove_of_absent lan ip mac hH]
    exact Or.inr (Or.inr ⟨rfl, rfl⟩)
  | some e =>
    by_cases ht : uintDec (ttlOf lan.ttl mac) = 0
    · rw [Remove_of_last lan ip mac e hH ht]
      refine Or.inr (Or.inl ⟨?_, e, rfl⟩)
      show (keys (mapDelete lan.Hosts mac)).length + 1 = (keys lan.Hosts).length
      simp only [keys, List.length_map]
      exact mapDelete_length lan.Hosts mac e hnd hH
    · rw [Remove_of_more lan ip mac e hH ht]
      exact Or.inr (Or.inr ⟨rfl, rfl⟩)

/-- One call changes the number of keys of `Hosts` together with the callback log: an
insertion comes with one `newCb`, a removal with one `lostCb`, and otherwise neither
`Hosts` nor the log changes. -/
theorem exec_accounting (env : Env) (lan : LAN) (c : Call) (hnd : (keys lan.Hosts).Nodup) :
    ((keys (c.exec env lan).Hosts).length = (keys lan.Hosts).length + 1 ∧
      ∃ e, (c.exec env lan).events = lan.events ++ [Event.newCb e]) ∨
    ((keys (c.exec env lan).Hosts).length + 1 = (keys lan.Hosts).length ∧
      ∃ e, (c.exec env lan).events = lan.events ++ [Event.lostCb e]) ∨
    ((c.exec env lan).Hosts = lan.Hosts ∧ (c.exec env lan).events = lan.events) := by
  cases c with
  | addIfNew ip mac => exact AddIfNew_accounting env lan ip mac
  | remove ip mac => exact Remove_accounting lan ip mac hnd
  | setAliasFor mac name =>
    have hf := SetAliasFor_frame env lan mac name
    exact Or.inr (Or.inr ⟨hf.1, hf.2.2.1⟩)

/-- The balance of keys and notifications is kept by every run. -/
theorem run_accounting (env : Env) (calls : List Call) (lan : LAN) (hinv : HeapInv lan)
    (hbal : (keys lan.Hosts).length + lostCount lan.events = newCount lan.events) :
    (keys (run env lan calls).Hosts).length + lostCount (run env lan calls).events
      = newCount (run env lan calls).events := by
  induction calls generalizing lan with
  | nil => exact hbal
  | cons c cs ih =>
    apply ih (c.exec env lan) (HeapInv_exec env lan c hinv)
    rcases exec_accounting env lan c hinv.1 with ⟨hl, e, he⟩ | ⟨hl, e, he⟩ | ⟨hH, he⟩
    · rw [hl, he, lostCount_append_new, newCount_append_new]
      omega
    · rw [he, lostCount_append_lost, newCount_append_lost]
      omega
    · rw [hH, he]
      exact hbal

/-- C19: after every finite sequence of `AddIfNew`, `Remove` and `SetAliasFor` calls on a
freshly constructed registry (the queries change no state), `Hosts` lists each key once
and the number of its keys is the number of `newCb` invocations minus the number of
`lostCb` invocations; and every further call either inserts one key with exactly one
`newCb`, or removes one key with exactly one `lostCb`, or changes neither `Hosts` nor the
callback log. -/
theorem notification_accounting (env : Env) (iface gateway : Endpoint) (aliases : Aliases)
    (calls : List Call) :
    (keys (run env (NewLAN iface gateway aliases) calls).Hosts).Nodup ∧
    (keys (run env (NewLAN iface gateway aliases) calls).Hosts).length
      = newCount (run env (NewLAN iface gateway aliases) calls).events
        - lostCount (run env (NewLAN iface gateway aliases) calls).events ∧
    lostCount (run env (NewLAN iface gateway aliases) calls).events
      ≤ newCount (run env (NewLAN iface gateway aliases) calls).events ∧
    ∀ c : Call,
      ((keys (c.exec env (run env (NewLAN iface gateway aliases) calls)).Hosts).length
          = (keys (run env (NewLAN iface gateway aliases) calls).Hosts).length + 1 ∧
        ∃ e, (c.exec env (run env (NewLAN iface gateway aliases) calls)).events
          = (run env (NewLAN iface gateway aliases) calls).events ++ [Event.newCb e]) ∨
      ((keys (c.exec env (run env (NewLAN iface gateway aliases) calls)).Hosts).length + 1
          = (keys (run env (NewLAN iface gateway aliases) calls).Hosts).length ∧
        ∃ e, (c.exec env (run env (NewLAN iface gateway aliases) calls)).events
          = (run env (NewLAN iface gateway aliases) calls).events ++ [Event.lostCb e]) ∨
      ((c.exec env (run env (NewLAN iface gateway aliases) calls)).Hosts
          = (run env (NewLAN iface gateway aliases) calls).Hosts ∧
        (c.exec env (run env (NewLAN iface gateway aliases) calls)).events
          = (run env (NewLAN iface gateway aliases) calls).events) := by
  have hinv := HeapInv_run env calls _ (HeapInv_NewLAN iface gateway aliases)
  have hbal := run_accounting env calls (NewLAN iface gateway aliases)
    (HeapInv_NewLAN iface gateway aliases) rfl
  exact ⟨hinv.1, by omega, by omega, fun c => exec_accounting env _ c hinv.1⟩

/-- Witness of C19: one host seen and evicted, another seen: one key, two `newCb`, one
`lostCb`. -/
theorem notification_accounting_witness :
    (keys (run stdEnv (NewLAN ifaceEx gatewayEx [])
      (Call.addIfNew "192.168.1.50" "AA-BB-CC-DD-EE-77" ::
        List.replicate 10 (Call.remove "" "aa:bb:cc:dd:ee:77") ++
        [Call.addIfNew "192.168.1.60" "aa:bb:cc:dd:ee:78"])).Hosts).length = 1 ∧
    newCount (run stdEnv (NewLAN ifaceEx gatewayEx [])
      (Call.addIfNew "192.168.1.50" "AA-BB-CC-DD-EE-77" ::
        List.replicate 10 (Call.remove "" "aa:bb:cc:dd:ee:77") ++
        [Call.addIfNew "192.168.1.60" "aa:bb:cc:dd:ee:78"])).events = 2 ∧
    lostCount (run stdEnv (NewLAN ifaceEx gatewayEx [])
      (Call.addIfNew "192.168.1.50" "AA-BB-CC-DD-EE-77" ::
        List.replicate 10 (Call.remove "" "aa:bb:cc:dd:ee:77") ++
        [Call.addIfNew "192.168.1.60" "aa:bb:cc:dd:ee:78"])).events = 1 ∧
    (keys (run stdEnv (NewLAN ifaceEx gatewayEx [])
      (Call.addIfNew "192.168.1.50" "AA-BB-CC-DD-EE-77" ::
        List.replicate 10 (Call.remove "" "aa:bb:cc:dd:ee:77") ++
        [Call.addIfNew "192.168.1.60" "aa:bb:cc:dd:ee:78"])).Hosts).length
      = newCount (run stdEnv (NewLAN ifaceEx gatewayEx [])
          (Call.addIfNew "192.168.1.50" "AA-BB-CC-DD-EE-77" ::
            List.replicate 10 (Call.remove "" "aa:bb:cc:dd:ee:77") ++
            [Call.addIfNew "192.168.1.60" "aa:bb:cc:dd:ee:78"])).events
        - lostCount (run stdEnv (NewLAN ifaceEx gatewayEx [])
          (Call.addIfNew "192.168.1.50" "AA-BB-CC-DD-EE-77" ::
            List.replicate 10 (Call.remove "" "aa:bb:cc:dd:ee:77") ++
            [Call.addIfNew "192.168.1.60" "aa:bb:cc:dd:ee:78"])).events :=
  ⟨by decide, by decide, by decide,
    (notification_accounting stdEnv ifaceEx gatewayEx []
      (Call.addIfNew "192.168.1.50" "AA-BB-CC-DD-EE-77" ::
        List.replicate 10 (Call.remove "" "aa:bb:cc:dd:ee:77") ++
        [Call.addIfNew "192.168.1.60" "aa:bb:cc:dd:ee:78"])).2.1⟩

/-! ## Locality of the mutations -/

theorem AddIfNew_other_key (env : Env) (lan : LAN) (ip mac K : String)
    (hne : env.NormalizeMac mac ≠ K) :
    mapGet (AddIfNew env lan ip mac).1.Hosts K = mapGet lan.Hosts K ∧
    mapGet (AddIfNew env lan ip mac).1.ttl K = mapGet lan.ttl K := by
  cases hs : shouldIgnore env lan ip (env.NormalizeMac mac) with
  | true =>
    rw [AddIfNew_of_ignore env lan ip mac hs]
    exact ⟨rfl, rfl⟩
  | false =>
    cases hH : mapGet lan.Hosts (env.NormalizeMac mac) with
    | none =>
      rw [AddIfNew_of_new env lan ip mac hs hH]
      exact ⟨mapGet_mapSet_ne _ _ _ _ (Ne.symm hne), mapGet_mapSet_ne _ _ _ _ (Ne.symm hne)⟩
    | some e =>
      by_cases ht : ttlOf lan.ttl (env.NormalizeMac mac) < LANDefaultttl
      · rw [AddIfNew_of_known_lt env lan ip mac e hs hH ht]
        exact ⟨rfl, mapGet_mapSet_ne _ _ _ _ (Ne.symm hne)⟩
      · rw [AddIfNew_of_known_ge env lan ip mac e hs hH ht]
        exact ⟨rfl, rfl⟩

theorem Remove_other_key (lan : LAN) (ip mac K : String) (hne : mac ≠ K) :
    mapGet (Remove lan ip mac).Hosts K = mapGet lan.Hosts K ∧
    mapGet (Remove lan ip mac).ttl K = mapGet lan.ttl K := by
  cases hH : mapGet lan.Hosts mac with
  | none =>
    rw [Remove_of_absent lan ip mac hH]
    exact ⟨rfl, rfl⟩
  | some e =>
    by_cases ht : uintDec (ttlOf lan.ttl mac) = 0
    · rw [Remove_of_last lan ip mac e hH ht]
      exact ⟨mapGet_mapDelete_ne _ _ _ (Ne.symm hne), mapGet_mapDelete_ne _ _ _ (Ne.symm hne)⟩
    · rw [Remove_of_more lan ip mac e hH ht]
      exact ⟨rfl, mapGet_mapSet_ne _ _ _ _ (Ne.symm hne)⟩

/-- What the calls leave alone, for every value of the fields: a key `K` of `Hosts` that
holds the allocated endpoint `ep` at address `p` keeps it, with its liveness counter,
through an `AddIfNew` or a `Remove` for another MAC, and through a `SetAliasFor` for
another MAC under which `p` is not stored. -/
theorem calls_leave_other_keys (env : Env) (lan : LAN) (K : String) (p : Ptr) (ep : Endpoint)
    (hK : mapGet lan.Hosts K = some p) (hp : deref lan p = some ep) :
    (∀ ip mac, env.NormalizeMac mac ≠ K →
      mapGet (AddIfNew env lan ip mac).1.Hosts K = some p ∧
      deref (AddIfNew env lan ip mac).1 p = some ep ∧
      mapGet (AddIfNew env lan ip mac).1.ttl K = mapGet lan.ttl K) ∧
    (∀ ip mac, mac ≠ K →
      mapGet (Remove lan ip mac).Hosts K = some p ∧
      deref (Remove lan ip mac) p = some ep ∧
      mapGet (Remove lan ip mac).ttl K = mapGet lan.ttl K) ∧
    (∀ mac name, env.NormalizeMac mac ≠ K →
      mapGet lan.Hosts (env.NormalizeMac mac) ≠ some p →
      mapGet (SetAliasFor env lan mac name).1.Hosts K = some p ∧
      deref (SetAliasFor env lan mac name).1 p = some ep ∧
      mapGet (SetAliasFor env lan mac name).1.ttl K = mapGet lan.ttl K) := by
  refine ⟨fun ip mac hne => ?_, fun ip mac hne => ?_, fun mac name hne hq => ?_⟩
  · have h := AddIfNew_other_key env lan ip mac K hne
    exact ⟨h.1.trans hK, AddIfNew_deref env lan ip mac p ep hp, h.2⟩
  · have h := Remove_other_key lan ip mac K hne
    refine ⟨h.1.trans hK, ?_, h.2⟩
    show (Remove lan ip mac).heap[p]? = some ep
    rw [Remove_heap]
    exact hp
  · have hf := SetAliasFor_frame env lan mac name
    refine ⟨by rw [hf.1]; exact hK, ?_, by rw [hf.2.1]⟩
    rw [SetAliasFor_deref env lan mac name p ep hp, if_neg hq]

/-- C20: in a registry state reached through the methods, every key `K` of `Hosts` holds
an allocated endpoint, and a call `AddIfNew(ip, mac)` or `SetAliasFor(mac, name)` whose
normalized `mac` differs from `K`, or `Remove(ip, mac)` whose `mac` differs from `K`,
leaves `K` in `Hosts` with the same endpoint, all its fields unchanged, and the same
liveness counter. -/
theorem mutation_locality (env : Env) (lan : LAN) (K : String) (p : Ptr)
    (hr : Reachable env lan) (hK : mapGet lan.Hosts K = some p) :
    ∃ ep, deref lan p = some ep ∧
      (∀ ip mac, env.NormalizeMac mac ≠ K →
        mapGet (AddIfNew env lan ip mac).1.Hosts K = some p ∧
        deref (AddIfNew env lan ip mac).1 p = some ep ∧
        mapGet (AddIfNew env lan ip mac).1.ttl K = mapGet lan.ttl K) ∧
      (∀ ip mac, mac ≠ K →
        mapGet (Remove lan ip mac).Hosts K = some p ∧
        deref (Remove lan ip mac) p = some ep ∧
        mapGet (Remove lan ip mac).ttl K = mapGet lan.ttl K) ∧
      (∀ mac name, env.NormalizeMac mac ≠ K →
        mapGet (SetAliasFor env lan mac name).1.Hosts K = some p ∧
        deref (SetAliasFor env lan mac name).1 p = some ep ∧
        mapGet (SetAliasFor env lan mac name).1.ttl K = mapGet lan.ttl K) := by
  have hinv := hr.heapInv
  obtain ⟨ep, hp⟩ := hinv.allocated hK
  obtain ⟨hadd, hrem, hset⟩ := calls_leave_other_keys env lan K p ep hK hp
  refine ⟨ep, hp, hadd, hrem, fun mac name hne => hset mac name hne ?_⟩
  intro hq
  exact hne (hinv.key_unique hq hK)

/-- Witness of C20: with two hosts seen, renaming, missing and re-sighting the second
leave the first as it was. -/
theorem mutation_locality_witness :
    (Reachable stdEnv twoSeenEx ∧ mapGet twoSeenEx.Hosts "aa:bb:cc:dd:ee:77" = some 0) ∧
    ∃ ep, deref twoSeenEx 0 = some ep ∧
      (∀ ip mac, stdEnv.NormalizeMac mac ≠ "aa:bb:cc:dd:ee:77" →
        mapGet (AddIfNew stdEnv twoSeenEx ip mac).1.Hosts "aa:bb:cc:dd:ee:77" = some 0 ∧
        deref (AddIfNew stdEnv twoSeenEx ip mac).1 0 = some ep ∧
        mapGet (AddIfNew stdEnv twoSeenEx ip mac).1.ttl "aa:bb:cc:dd:ee:77"
          = mapGet twoSeenEx.ttl "aa:bb:cc:dd:ee:77") ∧
      (∀ ip mac, mac ≠ "aa:bb:cc:dd:ee:77" →
        mapGet (Remove twoSeenEx ip mac).Hosts "aa:bb:cc:dd:ee:77" = some 0 ∧
        deref (Remove twoSeenEx ip mac) 0 = some ep ∧
        mapGet (Remove twoSeenEx ip mac).ttl "aa:bb:cc:dd:ee:77"
          = mapGet twoSeenEx.ttl "aa:bb:cc:dd:ee:77") ∧
      (∀ mac name, stdEnv.NormalizeMac mac ≠ "aa:bb:cc:dd:ee:77" →
        mapGet (SetAliasFor stdEnv twoSeenEx mac name).1.Hosts "aa:bb:cc:dd:ee:77" = some 0 ∧
        deref (SetAliasFor stdEnv twoSeenEx mac name).1 0 = some ep ∧
        mapGet (SetAliasFor stdEnv twoSeenEx mac name).1.ttl "aa:bb:cc:dd:ee:77"
          = mapGet twoSeenEx.ttl "aa:bb:cc:dd:ee:77") :=
  ⟨⟨⟨ifaceEx, gatewayEx, [], _, rfl⟩, by decide⟩,
    mutation_locality stdEnv twoSeenEx "aa:bb:cc:dd:ee:77" 0
      ⟨ifaceEx, gatewayEx, [], _, rfl⟩ (by decide)⟩

/-- The second host of `twoSeenEx` is renamed: the first keeps its endpoint, with the
empty alias, and its liveness. -/
theorem twoSeenEx_rename :
    (SetAliasFor stdEnv twoSeenEx "AA-BB-CC-DD-EE-78" "printer").2 = true ∧
    deref (SetAliasFor stdEnv twoSeenEx "AA-BB-CC-DD-EE-78" "printer").1 1
      = some (newEndpointModel "192.168.1.60" "aa:bb:cc:dd:ee:78" "printer") ∧
    deref (SetAliasFor stdEnv twoSeenEx "AA-BB-CC-DD-EE-78" "printer").1 0
      = some (newEndpointModel "192.168.1.50" "aa:bb:cc:dd:ee:77" "") ∧
    mapGet (SetAliasFor stdEnv twoSeenEx "AA-BB-CC-DD-EE-78" "printer").1.ttl
      "aa:bb:cc:dd:ee:77" = some 10 := by
  decide

/-! ## The lock discipline -/

/-- Accesses and callbacks made while the mutex is held do not affect the discipline of
what follows. -/
theorem guardedFrom_inner (exempt : Exempt) (inner rest : List Act)
    (h : ∀ a ∈ inner, a ≠ Act.Lock ∧ a ≠ Act.Unlock) :
    guardedFrom exempt true (inner ++ rest) = guardedFrom exempt true rest := by
  induction inner with
  | nil => rfl
  | cons a inner ih =>
    have hrest := ih (fun b hb => h b (List.mem_cons_of_mem _ hb))
    have ha := h a (List.mem_cons_self _ _)
    cases a with
    | Lock => exact absurd rfl ha.1
    | Unlock => exact absurd rfl ha.2
    | read part =>
      show ((true || exempt part) && guardedFrom exempt true (inner ++ rest)) = _
      rw [hrest, Bool.true_or, Bool.true_and]
    | write part =>
      show ((true || exempt part) && guardedFrom exempt true (inner ++ rest)) = _
      rw [hrest, Bool.true_or, Bool.true_and]
    | callback =>
      show (true && guardedFrom exempt true (inner ++ rest)) = _
      rw [hrest, Bool.true_and]

theorem scanActs_inner (lan : LAN) (ip : String) :
    ∀ a ∈ scanActs lan ip, a ≠ Act.Lock ∧ a ≠ Act.Unlock := by
  intro a ha
  have hread : a = Act.read Part.endpoint := by
    unfold scanActs at ha
    rcases List.mem_append.mp ha with h | h
    · obtain ⟨_, _, hx⟩ := List.mem_map.mp h
      exact hx.symm
    · by_cases hh : Has lan ip = true
      · rw [if_pos hh, List.mem_singleton] at h
        exact h
      · rw [if_neg hh] at h
        cases h
  rw [hread]
  exact ⟨fun hc => Act.noConfusion hc, fun hc => Act.noConfusion hc⟩

/-- A method that takes the mutex first, then only accesses and calls back, then
releases it, keeps the discipline and acquires the mutex. -/
theorem guarded_section (exempt : Exempt) (inner : List Act)
    (h : ∀ a ∈ inner, a ≠ Act.Lock ∧ a ≠ Act.Unlock) :
    guarded exempt ([Act.Lock] ++ inner ++ [Act.Unlock]) = true ∧
    takesLock ([Act.Lock] ++ inner ++ [Act.Unlock]) = true := by
  constructor
  · show guardedFrom exempt false (Act.Lock :: (inner ++ [Act.Unlock])) = true
    simp only [guardedFrom, Bool.not_false, Bool.true_and]
    rw [guardedFrom_inner exempt inner [Act.Unlock] h]
    rfl
  · simp [takesLock]

/-- Counterexample to C17 as stated: `WasMissed` for the interface's MAC reads the
interface and returns without ever taking the mutex; for another MAC it reads the
interface and the gateway before it takes the mutex. -/
theorem lock_counterexample :
    Op.acts stdEnv freshEx (Op.wasMissed "aa:bb:cc:dd:ee:01") = [Act.read Part.iface] ∧
    takesLock (Op.acts stdEnv freshEx (Op.wasMissed "aa:bb:cc:dd:ee:01")) = false ∧
    guarded noPart (Op.acts stdEnv freshEx (Op.wasMissed "aa:bb:cc:dd:ee:01")) = false ∧
    Op.acts stdEnv freshEx (Op.wasMissed "aa:bb:cc:dd:ee:77")
      = [Act.read Part.iface, Act.read Part.gateway, Act.Lock, Act.read Part.ttl, Act.Unlock] ∧
    guarded noPart (Op.acts stdEnv freshEx (Op.wasMissed "aa:bb:cc:dd:ee:77")) = false := by
  decide

/-- Every public method other than `WasMissed` is one section: `Lock`, then accesses and
callbacks only, then `Unlock`. -/
theorem acts_section (env : Env) (lan : LAN) (op : Op) (hop : ∀ mac, op ≠ Op.wasMissed mac) :
    ∃ inner, op.acts env lan = [Act.Lock] ++ inner ++ [Act.Unlock] ∧
      ∀ a ∈ inner, a ≠ Act.Lock ∧ a ≠ Act.Unlock := by
  cases op with
  | setAliasFor mac name =>
    refine ⟨[Act.read Part.Hosts] ++ (if mapHas lan.Hosts (env.NormalizeMac mac)
      then [Act.write Part.aliases, Act.write Part.endpoint] else []), rfl, ?_⟩
    split_ifs <;> decide
  | get mac => exact ⟨[Act.read Part.Hosts], rfl, by decide⟩
  | list => exact ⟨[Act.read Part.Hosts], rfl, by decide⟩
  | wasMissed mac => exact absurd rfl (hop mac)
  | remove ip mac =>
    refine ⟨[Act.read Part.Hosts] ++ (if mapHas lan.Hosts mac then
        [Act.read Part.ttl, Act.write Part.ttl, Act.read Part.ttl]
          ++ (if uintDec (ttlOf lan.ttl mac) = 0
              then [Act.write Part.Hosts, Act.write Part.ttl, Act.callback] else [])
      else []), rfl, ?_⟩
    split_ifs <;> decide
  | has ip =>
    refine ⟨[Act.read Part.Hosts] ++ scanActs lan ip, rfl, fun a ha => ?_⟩
    rcases List.mem_append.mp ha with h | h
    · rw [List.mem_singleton] at h
      rw [h]
      decide
    · exact scanActs_inner lan ip a h
  | eachHost =>
    refine ⟨[Act.read Part.Hosts] ++ lan.Hosts.map (fun _ => Act.callback), rfl, fun a ha => ?_⟩
    rcases List.mem_append.mp ha with h | h
    · rw [List.mem_singleton] at h
      rw [h]
      decide
    · obtain ⟨_, _, hx⟩ := List.mem_map.mp h
      rw [← hx]
      decide
  | getByIp ip =>
    refine ⟨[Act.read Part.Hosts] ++ scanActs lan ip, rfl, fun a ha => ?_⟩
    rcases List.mem_append.mp ha with h | h
    · rw [List.mem_singleton] at h
      rw [h]
      decide
    · exact scanActs_inner lan ip a h
  | addIfNew ip mac =>
    refine ⟨shouldIgnoreActs env lan ip (env.NormalizeMac mac)
      ++ (if shouldIgnore env lan ip (env.NormalizeMac mac) then []
          else if mapHas lan.Hosts (env.NormalizeMac mac) then
            [Act.read Part.Hosts, Act.read Part.ttl]
              ++ (if ttlOf lan.ttl (env.NormalizeMac mac) < LANDefaultttl
                  then [Act.read Part.ttl, Act.write Part.ttl] else [])
          else [Act.read Part.Hosts, Act.read Part.aliases, Act.write Part.Hosts,
                Act.write Part.ttl, Act.callback]), ?_, ?_⟩
    · simp only [Op.acts, List.append_assoc]
    · unfold shouldIgnoreActs
      split_ifs <;> decide

/-- C17 (amended): every public method keeps the lock discipline for the parts of the
registry that are written after construction: each access to `Hosts`, `ttl`, the alias
store and the endpoints, and each callback, happens while the one mutex is held, and the
mutex is free when the method returns, on every path.  Every method other than
`WasMissed` acquires the mutex before any access at all.  `WasMissed` reads the
interface's and the gateway's `HwAddress` before `Lock`, and acquires the mutex exactly
when `mac` is neither of them. -/
theorem lock_discipline (env : Env) (lan : LAN) (op : Op) :
    guarded ifaceOrGateway (op.acts env lan) = true ∧
    ((∀ mac, op ≠ Op.wasMissed mac) →
      guarded noPart (op.acts env lan) = true ∧ takesLock (op.acts env lan) = true) ∧
    (∀ mac, op = Op.wasMissed mac →
      (takesLock (op.acts env lan) = true ↔
        mac ≠ lan.iface.HwAddress ∧ mac ≠ lan.gateway.HwAddress)) := by
  have hsec : (∀ mac, op ≠ Op.wasMissed mac) → ∀ exempt : Exempt,
      guarded exempt (op.acts env lan) = true ∧ takesLock (op.acts env lan) = true := by
    intro hop exempt
    obtain ⟨inner, hacts, hinner⟩ := acts_section env lan op hop
    rw [hacts]
    exact guarded_section exempt inner hinner
  refine ⟨?_, fun hop => hsec hop noPart, ?_⟩
  · by_cases hop : ∀ mac, op ≠ Op.wasMissed mac
    · exact (hsec hop ifaceOrGateway).1
    · obtain ⟨mac, hmac⟩ := not_forall.mp hop
      have hop' : op = Op.wasMissed mac := not_not.mp hmac
      subst hop'
      simp only [Op.acts]
      split_ifs <;> rfl
  · intro mac hop
    subst hop
    simp only [Op.acts]
    split_ifs with h1 h2
    · exact ⟨fun h => absurd h (by decide), fun h => absurd h1 h.1⟩
    · exact ⟨fun h => absurd h (by decide), fun h => absurd h2 h.2⟩
    · exact ⟨fun _ => ⟨h1, h2⟩, fun _ => by decide⟩

/-- Witness of C17 (amended): `AddIfNew` on the fresh registry is one locked section, and
`WasMissed` for the interface's MAC keeps the discipline once the interface and the
gateway are exempt. -/
theorem lock_discipline_witness :
    guarded noPart (Op.acts stdEnv freshEx (Op.addIfNew "192.168.1.50" "AA-BB-CC-DD-EE-77")) = true ∧
    takesLock (Op.acts stdEnv freshEx (Op.addIfNew "192.168.1.50" "AA-BB-CC-DD-EE-77")) = true ∧
    guarded ifaceOrGateway (Op.acts stdEnv freshEx (Op.wasMissed "aa:bb:cc:dd:ee:01")) = true :=
  ⟨((lock_discipline stdEnv freshEx (Op.addIfNew "192.168.1.50" "AA-BB-CC-DD-EE-77")).2.1
      (fun _ h => Op.noConfusion h)).1,
    ((lock_discipline stdEnv freshEx (Op.addIfNew "192.168.1.50" "AA-BB-CC-DD-EE-77")).2.1
      (fun _ h => Op.noConfusion h)).2,
    (lock_discipline stdEnv freshEx (Op.wasMissed "aa:bb:cc:dd:ee:01")).1⟩

theorem shouldIgnoreActs_callbacks (env : Env) (lan : LAN) (ip mac : String) :
    (shouldIgnoreActs env lan ip mac).count Act.callback = 0 := by
  unfold shouldIgnoreActs
  split_ifs <;> rfl

/-- The callbacks in the steps of `AddIfNew` and `Remove` are the invocations the state
transformers record. -/
theorem acts_callbacks (env : Env) (lan : LAN) (ip mac : String) :
    (Op.acts env lan (Op.addIfNew ip mac)).count Act.callback + lan.events.length
      = (AddIfNew env lan ip mac).1.events.length ∧
    (Op.acts env lan (Op.remove ip mac)).count Act.callback + lan.events.length
      = (Remove lan ip mac).events.length := by
  constructor
  · simp only [Op.acts, List.count_append, shouldIgnoreActs_callbacks]
    cases hs : shouldIgnore env lan ip (env.NormalizeMac mac) with
    | true =>
      rw [AddIfNew_of_ignore env lan ip mac hs]
      simp
    | false =>
      cases hH : mapGet lan.Hosts (env.NormalizeMac mac) with
      | none =>
        rw [AddIfNew_of_new env lan ip mac hs hH]
        simp [mapHas, hH]
        omega
      | some e =>
        by_cases ht : ttlOf lan.ttl (env.NormalizeMac mac) < LANDefaultttl
        · rw [AddIfNew_of_known_lt env lan ip mac e hs hH ht]
          simp [mapHas, hH, ht]
        · rw [AddIfNew_of_known_ge env lan ip mac e hs hH ht]
          simp [mapHas, hH, ht]
  · have c1 : List.count Act.callback [Act.Lock, Act.read Part.Hosts] = 0 := by decide
    have c2 : List.count Act.callback
        [Act.read Part.ttl, Act.write Part.ttl, Act.read Part.ttl] = 0 := by decide
    have c3 : List.count Act.callback
        [Act.write Part.Hosts, Act.write Part.ttl, Act.callback] = 1 := by decide
    have c4 : List.count Act.callback [Act.Unlock] = 0 := by decide
    have c5 : List.count Act.callback ([] : List Act) = 0 := rfl
    simp only [Op.acts, List.count_append]
    cases hH : mapGet lan.Hosts mac with
    | none =>
      rw [Remove_of_absent lan ip mac hH]
      simp only [mapHas, hH, Option.isSome_none, Bool.false_eq_true, if_false, c1, c4, c5]
      omega
    | some e =>
      by_cases ht : uintDec (ttlOf lan.ttl mac) = 0
      · rw [Remove_of_last lan ip mac e hH ht]
        simp only [mapHas, hH, Option.isSome_some, if_true, ht, List.count_append,
          List.length_append, List.length_singleton, c1, c2, c3, c4]
        omega
      · rw [Remove_of_more lan ip mac e hH ht]
        simp only [mapHas, hH, Option.isSome_some, if_true, ht, if_false, List.count_append,
          c1, c2, c4, c5]
        omega

end Network
